import Mathlib

/-!
Verification of the NotionToDiscordNotifier Google Apps Script
(`src/NotionToDiscordNotifier/main.js`) against its specification.

The development shallowly embeds the script.  JavaScript objects that
flow through the webhook pipeline are modelled by an inductive `Json`
type; the host `JSON.stringify` / `JSON.parse` pair is modelled by a
concrete serializer and parser over that type, with a proved
round-trip theorem.  Spreadsheet sheets are modelled as lists of rows;
outbound HTTP is modelled by recording attempted fetches, with an
ambient `net` function saying whether a fetch to a given URL raises.

Deliberate, documented modelling simplifications (none observed by the
claims):
* JSON number literals are kept as their source text (`Json.num`),
  since no number is ever inspected by the script.
* Control characters inside strings are serialized raw (the modelled
  parser accepts them raw as well); only `"` and `\` are escaped.
* `e.postData.contents`, page ids and property leaf values are only
  given meaning when they are strings, as the HTTP host layer and the
  Notion schema guarantee; non-string values there degrade to the
  "missing" branch.
* The execution-trace strings (`executionLogs`) and the receipt
  timestamp are not modelled; the audit row keeps the claim-relevant
  columns.
-/

namespace GasNotifier

/-- JavaScript values handled by the script: the JSON fragment
(`null`, booleans, numbers, strings, arrays, objects).  Number
literals are kept as their source text. -/
inductive Json where
  | null : Json
  | bool : Bool → Json
  | num : String → Json
  | str : String → Json
  | arr : List Json → Json
  | obj : List (String × Json) → Json
deriving Repr, Inhabited


/-- Characters that may occur in a JSON number literal. -/
def numChar (c : Char) : Bool :=
  c.isDigit || c = '-' || c = '+' || c = '.' || c = 'e' || c = 'E'


/-- Escape the body of a JSON string: `"` and `\` get a backslash. -/
def escChars : List Char → List Char
  | [] => []
  | c :: cs => if c = '"' ∨ c = '\\' then '\\' :: c :: escChars cs else c :: escChars cs


/-- A JSON string literal (quotes plus escaped body). -/
def quoteStr (s : String) : String :=
  String.mk ('"' :: (escChars s.data ++ ['"']))


mutual
/-- Model of the host `JSON.stringify` (compact form, as in V8). -/
def jsonStringify : Json → String
  | .null => "null"
  | .bool true => "true"
  | .bool false => "false"
  | .num s => s
  | .str s => quoteStr s
  | .arr xs => "[" ++ stringifyElems xs ++ "]"
  | .obj kvs => "\x7b" ++ stringifyMembers kvs ++ "\x7d"

/-- Comma-separated serialization of array elements. -/
def stringifyElems : List Json → String
  | [] => ""
  | [x] => jsonStringify x
  | x :: y :: rest => jsonStringify x ++ "," ++ stringifyElems (y :: rest)

/-- Comma-separated serialization of object members. -/
def stringifyMembers : List (String × Json) → String
  | [] => ""
  | [kv] => quoteStr kv.1 ++ ":" ++ jsonStringify kv.2
  | kv :: e :: rest => quoteStr kv.1 ++ ":" ++ jsonStringify kv.2 ++ "," ++ stringifyMembers (e :: rest)
end

/-- Parse the body of a JSON string literal after the opening quote:
returns the decoded characters and the input after the closing quote. -/
def parseStrBody : List Char → Option (List Char × List Char)
  | [] => none
  | c :: rest =>
      if c = '"' then some ([], rest)
      else if c = '\\' then
        match rest with
        | [] => none
        | d :: rest2 => (parseStrBody rest2).map (fun p => (d :: p.1, p.2))
      else (parseStrBody rest).map (fun p => (c :: p.1, p.2))


mutual
/-- Model of the host `JSON.parse`, fuelled recursive descent over the
compact grammar emitted by `jsonStringify`.  Returns the value and the
unconsumed input. -/
def parseVal : Nat → List Char → Option (Json × List Char)
  | 0, _ => none
  | fuel + 1, cs =>
    match cs with
    | [] => none
    | c :: rest =>
      if c = '"' then
        (parseStrBody rest).map (fun p => (.str (String.mk p.1), p.2))
      else if c = '[' then
        match rest with
        | ']' :: r => some (.arr [], r)
        | _ => (parseElems fuel rest).map (fun p => (.arr p.1, p.2))
      else if c = '\x7b' then
        match rest with
        | '\x7d' :: r => some (.obj [], r)
        | _ => (parseMembers fuel rest).map (fun p => (.obj p.1, p.2))
      else if c = 'n' then
        match rest with
        | 'u' :: 'l' :: 'l' :: r => some (.null, r)
        | _ => none
      else if c = 't' then
        match rest with
        | 'r' :: 'u' :: 'e' :: r => some (.bool true, r)
        | _ => none
      else if c = 'f' then
        match rest with
        | 'a' :: 'l' :: 's' :: 'e' :: r => some (.bool false, r)
        | _ => none
      else if numChar c then
        some (.num (String.mk (c :: rest.takeWhile numChar)), rest.dropWhile numChar)
      else none

/-- Parse `value (, value)* ]`. -/
def parseElems : Nat → List Char → Option (List Json × List Char)
  | 0, _ => none
  | fuel + 1, cs =>
      match parseVal fuel cs with
      | none => none
      | some (v, r) =>
        match r with
        | ',' :: r2 =>
            match parseElems fuel r2 with
            | none => none
            | some (vs, r3) => some (v :: vs, r3)
        | ']' :: r2 => some ([v], r2)
        | _ => none

/-- Parse `"key": value (, "key": value)* RBRACE`. -/
def parseMembers : Nat → List Char → Option (List (String × Json) × List Char)
  | 0, _ => none
  | fuel + 1, cs =>
      match cs with
      | '"' :: r =>
        match parseStrBody r with
        | none => none
        | some (k, r1) =>
          match r1 with
          | ':' :: r2 =>
            match parseVal fuel r2 with
            | none => none
            | some (v, r3) =>
              match r3 with
              | ',' :: r4 =>
                  match parseMembers fuel r4 with
                  | none => none
                  | some (ms, r5) => some ((String.mk k, v) :: ms, r5)
              | '\x7d' :: r4 => some ([(String.mk k, v)], r4)
              | _ => none
          | _ => none
      | _ => none
end

/-- Model of the host `JSON.parse` on a whole string: the entire input
must be consumed.  Unparseable input yields `none` (the host throws). -/
def jsonParse (s : String) : Option Json :=
  match parseVal (s.data.length + 1) s.data with
  | some (v, []) => some v
  | _ => none


mutual
/-- Well-formed values: every number literal is a non-empty run of
number characters.  All values produced by `jsonParse` are well formed,
and well-formed values round-trip through `jsonStringify`/`jsonParse`. -/
def wfJson : Json → Bool
  | .null => true
  | .bool _ => true
  | .num s => !s.data.isEmpty && s.data.all numChar
  | .str _ => true
  | .arr xs => wfElems xs
  | .obj kvs => wfMembers kvs

/-- Conjunction of `wfJson` over every element of an array. -/
def wfElems : List Json → Bool
  | [] => true
  | x :: xs => wfJson x && wfElems xs

/-- Conjunction of `wfJson` over every member value of an object. -/
def wfMembers : List (String × Json) → Bool
  | [] => true
  | kv :: kvs => wfJson kv.2 && wfMembers kvs
end

mutual
/-- Fuel needed by `parseVal` to parse a serialized value. -/
def jsize : Json → Nat
  | .null => 1
  | .bool _ => 1
  | .num _ => 1
  | .str _ => 1
  | .arr xs => 1 + lsize xs
  | .obj kvs => 1 + msize kvs

/-- Fuel needed by `parseElems`. -/
def lsize : List Json → Nat
  | [] => 0
  | x :: xs => 1 + jsize x + lsize xs

/-- Fuel needed by `parseMembers`. -/
def msize : List (String × Json) → Nat
  | [] => 0
  | kv :: kvs => 1 + jsize kv.2 + msize kvs
end

/-- No character of `cs` that could extend a number literal comes first. -/
def notNumStart (cs : List Char) : Prop :=
  ∀ c, cs.head? = some c → numChar c = false


/-- Characters a serialized JSON value can start with. -/
def headOk (c : Char) : Bool :=
  c = '"' || c = '[' || c = '\x7b' || c = 'n' || c = 't' || c = 'f' || numChar c


/-- Last-duplicate-wins lookup in an object member list (JS property
access on an object built from parsed JSON). -/
def jGetMembers : List (String × Json) → String → Option Json
  | [], _ => none
  | kv :: kvs, k =>
      match jGetMembers kvs k with
      | some v => some v
      | none => if kv.1 = k then some kv.2 else none


/-- JS property access `o[k]`: defined on objects, `undefined`
(here `none`) on every other value. -/
def jGet (j : Json) (k : String) : Option Json :=
  match j with
  | .obj kvs => jGetMembers kvs k
  | _ => none


/-- JS truthiness of a possibly-`undefined` value.  A number literal is
truthy when some digit is non-zero (the `"0e9"` corner is not modelled;
no number reaches a truthiness test in the script). -/
def jsTruthy : Option Json → Bool
  | none => false
  | some .null => false
  | some (.bool b) => b
  | some (.str s) => s ≠ ""
  | some (.num s) => !(s.data.filter Char.isDigit).all (fun c => c = '0')
  | some (.arr _) => true
  | some (.obj _) => true


/-- The record `extractNotionInfo` produces (`PageRecord` in the spec):
company name, primary status, assignee, liaison status, page URL and
formatted last-edited time. -/
structure NotionInfo where
  kigyoMei : String
  status : Option String
  tanto : Option String
  sharoushi : Option String
  pageUrl : String
  lastEditedTime : String
deriving Repr, DecidableEq, Inhabited


/-- Stand-in for `Utilities.formatDate(new Date(t), "Asia/Tokyo",
"yyyy/MM/dd HH:mm:ss")`: host date formatting is opaque to every claim
(the round-trip claim explicitly excepts it), so it is modelled as a
total function of the raw timestamp string. -/
def formatTokyo (iso : String) : String := iso


/-- A property-chain result used as a string: non-empty strings stand,
everything else (missing, `null`, `""`, non-strings) degrades to
`none`, matching the script's `x || fallback` usage on the
string-typed Notion fields. -/
def asNonemptyStr : Option Json → Option String
  | some (.str s) => if s = "" then none else some s
  | _ => none


/-- Chain `prop?.title?.[0]?.plain_text`. -/
def getPlainText (prop : Option Json) : Option String :=
  asNonemptyStr ((((prop.bind (jGet · "title")).bind
    (fun t => match t with | .arr xs => xs[0]? | _ => none)).bind (jGet · "plain_text")))


/-- Chain `prop?.status?.name`. -/
def getStatusName (prop : Option Json) : Option String :=
  asNonemptyStr ((prop.bind (jGet · "status")).bind (jGet · "name"))


/-- Chain `prop?.select?.name`. -/
def getSelectName (prop : Option Json) : Option String :=
  asNonemptyStr ((prop.bind (jGet · "select")).bind (jGet · "name"))


/-- Function `extractNotionInfo(notionPageData)` (main.js:293): the Property
Extractor.  Missing/falsy `properties` yields the early-return record;
otherwise every field degrades independently. -/
def extractNotionInfo (notionPageData : Json) : NotionInfo :=
  let properties := jGet notionPageData "properties"
  if !(jsTruthy properties) then
    { kigyoMei := "企業名不明", status := none, tanto := none, sharoushi := none,
      pageUrl := "URL不明", lastEditedTime := "日時不明" }
  else
    { kigyoMei := (getPlainText (properties.bind (jGet · "企業名"))).getD "企業名不明",
      status := getStatusName (properties.bind (jGet · "商談ステータス")),
      tanto := getSelectName (properties.bind (jGet · "担当")),
      sharoushi := getStatusName (properties.bind (jGet · "社労士連携")),
      pageUrl := (asNonemptyStr (jGet notionPageData "url")).getD "URL不明",
      lastEditedTime :=
        match asNonemptyStr (jGet notionPageData "last_edited_time") with
        | some t => formatTokyo t
        | none => "日時不明" }


/-- A row of the ページ状態履歴 sheet: (Page ID, Last Known Properties (JSON)). -/
abbrev StateRow := String × String


/-- The header row `getOrCreateSheet` writes into a fresh state sheet. -/
def stateHeader : StateRow := ("Page ID", "Last Known Properties (JSON)")


/-- The bottom-up scan of `getPreviousState` (`for i = data.length - 1; i > 0`):
index `i` is the 0-based list index; the header row at index 0 is never
examined.  Returns the list index and the stored JSON cell. -/
def findRowAux (rows : List StateRow) (pid : String) : Nat → Option (Nat × String)
  | 0 => none
  | i + 1 =>
      match rows[i + 1]? with
      | some r => if r.1 = pid then some (i + 1, r.2) else findRowAux rows pid i
      | none => findRowAux rows pid i


/-- Bottom-most data row whose Page ID column matches. -/
def findFromBottom (rows : List StateRow) (pid : String) : Option (Nat × String) :=
  findRowAux rows pid (rows.length - 1)


/-- Result of `getPreviousState`: 1-based sheet row number and the
parsed stored properties. -/
structure PrevState where
  rowIndex : Int
  properties : Json
deriving Repr, Inhabited


/-- Function `getPreviousState(stateSheet, pageId)` (main.js:344): bottom-up
last-match-wins lookup; a stored cell that fails `JSON.parse` is
treated as no previous state (fail-open). -/
def getPreviousState (stateSheet : List StateRow) (pid : String) : Option PrevState :=
  match findFromBottom stateSheet pid with
  | some (i, cell) =>
      (match jsonParse cell with
       | some props => some { rowIndex := (i : Int) + 1, properties := props }
       | none => none)
  | none => none


/-- Result of `JSON.stringify(newProperties)` as stored by the script:
`JSON.stringify(undefined)` is `undefined`, which `appendRow`/`setValue`
store as a blank cell, modelled as `""`. -/
def stringifyOpt : Option Json → String
  | some v => jsonStringify v
  | none => ""


/-- Effect of `setValue` on the Last-Known-Properties cell of 1-based row
`rowIndex` (list index `rowIndex - 1`); the Page ID cell is untouched. -/
def setCellB (rows : List StateRow) (i : Nat) (v : String) : List StateRow :=
  match rows[i]? with
  | some r => rows.set i (r.1, v)
  | none => rows


/-- Function `updateCurrentState(stateSheet, pageId, newProperties, rowIndex)`
(main.js:376): overwrite in place when `rowIndex > -1`, else append. -/
def updateCurrentState (stateSheet : List StateRow) (pid : String)
    (newProperties : Option Json) (rowIndex : Int) : List StateRow :=
  let newPropertiesJson := stringifyOpt newProperties
  if rowIndex > -1 then
    setCellB stateSheet (rowIndex - 1).toNat newPropertiesJson
  else
    stateSheet ++ [(pid, newPropertiesJson)]


/-- The `（未設定）` placeholder used by the Composer. -/
def naUnset : String := "（未設定）"


/-- Defaulting of an optional field in the style of `previousInfo.status || na`. -/
def orNa (v : Option String) : String :=
  match v with
  | some s => if s = "" then naUnset else s
  | none => naUnset


/-- The 商談ステータス line of the status-change message: arrow
transition when changed, plain current value when unchanged. -/
def statusLine (prevStatus currentStatus : String) : String :=
  if currentStatus ≠ prevStatus then
    "**商談ステータス:** **\x60" ++ prevStatus ++ "\x60** → **\x60"
      ++ currentStatus ++ "\x60** に変更\n"
  else
    "**商談ステータス:** " ++ currentStatus ++ "\n"


/-- The 担当 line of the status-change message. -/
def tantoLine (prevTanto currentTanto : String) : String :=
  if currentTanto ≠ prevTanto then
    "**担当:** **\x60" ++ prevTanto ++ "\x60** → **\x60"
      ++ currentTanto ++ "\x60** に変更\n"
  else
    "**担当:** " ++ currentTanto ++ "\n"


/-- Function `createStatusChangeMessage(previousInfo, currentInfo)` (main.js:467). -/
def createStatusChangeMessage (previousInfo : Option NotionInfo)
    (currentInfo : NotionInfo) : String :=
  let prevStatus := match previousInfo with | some p => orNa p.status | none => naUnset
  let currentStatus := orNa currentInfo.status
  let prevTanto := match previousInfo with | some p => orNa p.tanto | none => naUnset
  let currentTanto := orNa currentInfo.tanto
  let messageBody := "**企業名:** " ++ currentInfo.kigyoMei ++ "\n"
      ++ statusLine prevStatus currentStatus
      ++ tantoLine prevTanto currentTanto
      ++ "**最終更新日時:** " ++ currentInfo.lastEditedTime ++ "\n"
  "**【商談ステータス】更新通知** 📢\n"
    ++ "------------------------------------\n"
    ++ messageBody
    ++ "------------------------------------\n"
    ++ "詳細はこちら: " ++ currentInfo.pageUrl


/-- Function `createSharoushiUpdateMessage(previousInfo, currentInfo)` (main.js:508). -/
def createSharoushiUpdateMessage (previousInfo : Option NotionInfo)
    (currentInfo : NotionInfo) : String :=
  let prevSharoushi := match previousInfo with
    | some p => orNa p.sharoushi
    | none => "（変更前データなし）"
  let changeMessage := "**\x60" ++ prevSharoushi ++ "\x60** → **\x60"
      ++ orNa currentInfo.sharoushi ++ "\x60** に変更されました。"
  "**【社労士連携】更新通知** 🔔\n"
    ++ "------------------------------------\n"
    ++ "**企業名:** " ++ currentInfo.kigyoMei ++ "\n"
    ++ "**担当:** " ++ orNa currentInfo.tanto ++ "\n"
    ++ "**連携ステータス:** " ++ changeMessage ++ "\n"
    ++ "------------------------------------\n"
    ++ "詳細はこちら: " ++ currentInfo.pageUrl


/-- Outcome of one `sendDiscordMessage` call; `sent` records the
`UrlFetchApp.fetch` calls actually attempted. -/
structure SendResult where
  status : String
  error : Option String
  sent : List (String × String)
deriving Repr, DecidableEq, Inhabited


/-- The URL shape `sendDiscordMessage` requires before fetching. -/
def webhookUrlStart : String := "https://discord.com/api/webhooks/"


/-- Function `sendDiscordMessage(webhookUrl, payload)` (main.js:534).  `net u`
is the ambient network: `none` means the fetch succeeds, `some err`
means it throws with message `err`. -/
def sendDiscordMessage (webhookUrl : Option String) (payloadContent : String)
    (net : String → Option String) : SendResult :=
  match webhookUrl with
  | none => { status := "URL未設定/不正のためスキップ", error := none, sent := [] }
  | some u =>
      if u = "" ∨ ¬ u.startsWith webhookUrlStart then
        { status := "URL未設定/不正のためスキップ", error := none, sent := [] }
      else
        let payload := jsonStringify (.obj [("content", .str payloadContent)])
        match net u with
        | none => { status := "送信成功", error := none, sent := [(u, payload)] }
        | some errText => { status := "送信エラー", error := some errText, sent := [(u, payload)] }


/-- Script properties as stored in `PropertiesService` (`null` = unset). -/
structure ScriptProps where
  spreadsheetId : Option String
  logSheetName : Option String
  discordUrl : Option String
  discordUrlSharoushi : Option String
deriving Repr, DecidableEq, Inhabited


/-- The configuration object `loadConfig` builds. -/
structure Config where
  spreadsheetId : String
  logSheetName : String
  stateSheetName : String
  discordUrl : Option String
  discordUrlSharoushi : Option String
deriving Repr, DecidableEq, Inhabited


/-- Function `loadConfig(executionLogs)` (main.js:182): throws iff the
spreadsheet id property is falsy. -/
def loadConfig (props : ScriptProps) : Except String Config :=
  match props.spreadsheetId with
  | none => .error "Script Property \"SPREADSHEET_ID_SECRET\" is not set."
  | some sid =>
      if sid = "" then .error "Script Property \"SPREADSHEET_ID_SECRET\" is not set."
      else .ok
        { spreadsheetId := sid,
          logSheetName :=
            (match props.logSheetName with
             | some n => if n = "" then "NotionWebhookLog" else n
             | none => "NotionWebhookLog"),
          stateSheetName := "ページ状態履歴",
          discordUrl := props.discordUrl,
          discordUrlSharoushi := props.discordUrlSharoushi }


/-- One entry of the `notificationResults` array. -/
structure NotifResult where
  type : String
  status : String
  error : Option String
deriving Repr, DecidableEq, Inhabited


/-- JS truthiness of an optional string (`null`/`""` falsy). -/
def optStrTruthy (v : Option String) : Bool :=
  match v with
  | some s => s ≠ ""
  | none => false


/-- Predicate `needsStatusNotification` (main.js:414). -/
def needsStatusNotification (previousInfo : Option NotionInfo)
    (currentInfo : NotionInfo) : Bool :=
  match previousInfo with
  | none => optStrTruthy currentInfo.status || optStrTruthy currentInfo.tanto
  | some p => decide (p.status ≠ currentInfo.status) || decide (p.tanto ≠ currentInfo.tanto)


/-- Predicate `needsSharoushiNotification` (main.js:421). -/
def needsSharoushiNotification (previousInfo : Option NotionInfo)
    (currentInfo : NotionInfo) : Bool :=
  match previousInfo with
  | none => optStrTruthy currentInfo.sharoushi
  | some p => decide (p.sharoushi ≠ currentInfo.sharoushi)


/-- Function `handleNotifications(previousInfo, currentInfo, config)`
(main.js:407): evaluates the two predicates independently, composes and
sends each warranted message, and collects the per-channel results
(first component) and the attempted fetches (second component). -/
def handleNotifications (previousInfo : Option NotionInfo) (currentInfo : NotionInfo)
    (config : Config) (net : String → Option String) :
    List NotifResult × List (String × String) :=
  let statusPart :=
    if needsStatusNotification previousInfo currentInfo then
      let message := createStatusChangeMessage previousInfo currentInfo
      let r := sendDiscordMessage config.discordUrl message net
      ([{ type := "ステータス・担当者変更", status := r.status, error := r.error }], r.sent)
    else ([], [])
  let sharoushiPart :=
    if needsSharoushiNotification previousInfo currentInfo then
      let message := createSharoushiUpdateMessage previousInfo currentInfo
      let r := sendDiscordMessage config.discordUrlSharoushi message net
      ([{ type := "社労士連携", status := r.status, error := r.error }], r.sent)
    else ([], [])
  (statusPart.1 ++ sharoushiPart.1, statusPart.2 ++ sharoushiPart.2)


/-- Result of `parseWebhookEvent` (main.js:245). -/
structure ParsedEvent where
  rawContents : String
  fullEventString : String
  notionPageData : Option Json
deriving Repr, Inhabited


/-- Value of `e.postData.contents` when truthy; only string contents are
modelled (the HTTP host always delivers a string body). -/
def contentsOf (ev : Json) : Option String :=
  if ¬ jsTruthy (jGet ev "postData") then none
  else
    match (jGet ev "postData").bind (jGet · "contents") with
    | some (.str s) => if s = "" then none else some s
    | _ => none


/-- Function `parseWebhookEvent(e, executionLogs)` (main.js:245). -/
def parseWebhookEvent (e : Option Json) : ParsedEvent :=
  match e with
  | none =>
      { rawContents := "N/A",
        fullEventString := "Event object 'e' is undefined or null",
        notionPageData := none }
  | some ev =>
      let fullEventString := jsonStringify ev
      match contentsOf ev with
      | none =>
          { rawContents := "e.postData or e.postData.contents is missing",
            fullEventString, notionPageData := none }
      | some rawContents =>
          match jsonParse rawContents with
          | none => { rawContents, fullEventString, notionPageData := none }
          | some eventData =>
              let d := jGet eventData "data"
              if jsTruthy d then
                { rawContents, fullEventString, notionPageData := d }
              else
                { rawContents, fullEventString, notionPageData := none }


/-- The `!currentPageData || !currentPageData.id` guard (main.js:108);
only string page ids are modelled (Notion ids are UUID strings). -/
def pageIdOf (pageData? : Option Json) : Option (String × Json) :=
  match pageData? with
  | none => none
  | some pd =>
      match jGet pd "id" with
      | some (.str s) => if s = "" then none else some (s, pd)
      | _ => none


/-- One audit row (`logToSheet`, main.js:571).  The receipt timestamp
and the execution-trace column are not modelled; the remaining seven
columns are kept. -/
structure LogRow where
  kigyoMei : String
  status : Option String
  tanto : Option String
  overallStatus : String
  discordSummary : String
  rawContents : String
  fullEventString : String
deriving Repr, DecidableEq, Inhabited


/-- The two tables of the spreadsheet. -/
structure Sheets where
  logRows : List LogRow
  stateRows : List StateRow
deriving Repr, DecidableEq, Inhabited


/-- What one invocation returns and leaves behind. -/
structure WebhookOutcome where
  status : String
  message : String
  sheets : Sheets
  results : List NotifResult
  sent : List (String × String)
deriving Repr, Inhabited


/-- Summary `logData.discordSendStatus.join("\n")`. -/
def discordSummaryOf (results : List NotifResult) : String :=
  String.intercalate "\n" (results.map (fun r => r.type ++ ": " ++ r.status))


/-- Function `processWebhook(e)` (main.js:71), the Webhook Orchestrator.  The
`try` block can throw only in `loadConfig` (config missing) or at the
page-data/page-id guard; both land in the `catch` that sets the fatal
status, and the `finally` appends one audit row whenever the log sheet
was obtained. -/
def processWebhook (sp : ScriptProps) (e : Option Json) (net : String → Option String)
    (sheets : Sheets) : WebhookOutcome :=
  match loadConfig sp with
  | .error _ =>
      { status := "致命的エラー", message := "Webhook processed.",
        sheets := sheets, results := [], sent := [] }
  | .ok config =>
      let stateRows0 := if sheets.stateRows.isEmpty then [stateHeader] else sheets.stateRows
      let parsed := parseWebhookEvent e
      match pageIdOf parsed.notionPageData with
      | none =>
          let row : LogRow :=
            { kigyoMei := "N/A", status := some "N/A", tanto := some "N/A",
              overallStatus := "致命的エラー", discordSummary := "",
              rawContents := parsed.rawContents,
              fullEventString := parsed.fullEventString }
          { status := "致命的エラー", message := "Webhook processed.",
            sheets := { logRows := sheets.logRows ++ [row], stateRows := stateRows0 },
            results := [], sent := [] }
      | some (pageId, currentPageData) =>
          let currentInfo := extractNotionInfo currentPageData
          let previousState := getPreviousState stateRows0 pageId
          let previousInfo := previousState.map
            (fun s => extractNotionInfo (Json.obj [("properties", s.properties)]))
          let hn := handleNotifications previousInfo currentInfo config net
          let overall :=
            if hn.1.any (fun r => optStrTruthy r.error) then "一部エラー" else "成功"
          let stateRows1 := updateCurrentState stateRows0 pageId
            (jGet currentPageData "properties")
            (match previousState with | some s => s.rowIndex | none => -1)
          let row : LogRow :=
            { kigyoMei := currentInfo.kigyoMei, status := currentInfo.status,
              tanto := currentInfo.tanto, overallStatus := overall,
              discordSummary := discordSummaryOf hn.1,
              rawContents := parsed.rawContents,
              fullEventString := parsed.fullEventString }
          { status := overall, message := "Webhook processed.",
            sheets := { logRows := sheets.logRows ++ [row], stateRows := stateRows1 },
            results := hn.1, sent := hn.2 }


/-- Function `doPost(e)` (main.js:58): the JSON body handed back to the HTTP
caller. -/
def doPost (sp : ScriptProps) (e : Option Json) (net : String → Option String)
    (sheets : Sheets) : String :=
  let result := processWebhook sp e net sheets
  jsonStringify (.obj [("status", .str result.status), ("message", .str result.message)])


/-- The guard of `sendDiscordMessage`: URL missing (`null`), empty, or
not starting with the Discord webhook URL shape. -/
def urlInvalid : Option String → Bool
  | none => true
  | some u => u = "" || !(u.startsWith webhookUrlStart)


/-- The inbound-event shape of C8: `e.postData.contents` absent. -/
def contentsMissing (e : Option Json) : Bool :=
  match e with
  | some ev => (contentsOf ev).isNone
  | none => false


/-- Number of live data rows carrying a given page id. -/
def liveCount (s : List StateRow) (pid : String) : Nat :=
  (s.drop 1).countP (fun r => r.1 == pid)


/-- Payloads whose page data (when present and carrying a page id)
also carries a `properties` member.  The amended C5 invariant is
restricted to runs of such payloads: a payload without `properties`
stores an unparseable blank cell and later causes a duplicate append
(see the counterexample). -/
def goodEvent (e : Option Json) : Bool :=
  match pageIdOf (parseWebhookEvent e).notionPageData with
  | some pd => (jGet pd.2 "properties").isSome
  | none => true


/-- States of the ページ状態履歴 sheet reachable from a fresh sheet by
invocations of the Orchestrator whose payloads carry `properties`. -/
inductive ReachableState : List StateRow → Prop where
  | init : ReachableState [stateHeader]
  | step (sp : ScriptProps) (e : Option Json) (net : String → Option String)
      (logRows : List LogRow) (s : List StateRow) :
      ReachableState s → goodEvent e = true →
      ReachableState (processWebhook sp e net ⟨logRows, s⟩).sheets.stateRows


/-- The state-sheet invariant: non-empty (header present), at most one
live row per page id, and every data row's payload cell parses. -/
def SheetInv (s : List StateRow) : Prop :=
  s ≠ [] ∧ (∀ pid, liveCount s pid ≤ 1) ∧
  (∀ (j : Nat) (r : StateRow), 1 ≤ j → s[j]? = some r → (jsonParse r.2).isSome)


theorem jsize_pos (v : Json) : 1 ≤ jsize v := by
  cases v <;> simp [jsize]


theorem lsize_pos (xs : List Json) (h : xs ≠ []) : 1 ≤ lsize xs := by
  cases xs with
  | nil => exact absurd rfl h
  | cons x xs => simp [lsize]; omega


theorem msize_pos (kvs : List (String × Json)) (h : kvs ≠ []) : 1 ≤ msize kvs := by
  cases kvs with
  | nil => exact absurd rfl h
  | cons kv kvs => simp [msize]; omega


theorem notNumStart_nil : notNumStart [] := by
  intro c h; simp at h


theorem notNumStart_cons {c : Char} (h : numChar c = false) (l : List Char) :
    notNumStart (c :: l) := by
  intro d hd; simp at hd; subst hd; exact h


theorem takeWhile_append_all {p : Char → Bool} {l r : List Char}
    (hl : l.all p) (hr : ∀ c, r.head? = some c → p c = false) :
    (l ++ r).takeWhile p = l ∧ (l ++ r).dropWhile p = r := by
  induction l with
  | nil =>
      simp only [List.nil_append]
      cases r with
      | nil => simp [List.takeWhile, List.dropWhile]
      | cons c r' =>
          have := hr c rfl
          simp [List.takeWhile, List.dropWhile, this]
  | cons a l' ih =>
      simp only [List.all_cons, Bool.and_eq_true] at hl
      have h2 := ih hl.2
      simp [List.takeWhile, List.dropWhile, hl.1, h2.1, h2.2]


theorem parseStrBody_esc (s rest : List Char) :
    parseStrBody (escChars s ++ ('"' :: rest)) = some (s, rest) := by
  induction s with
  | nil =>
      simp only [escChars, List.nil_append]
      rw [parseStrBody.eq_def]; simp
  | cons c cs ih =>
      by_cases h : c = '"' ∨ c = '\\'
      · simp only [escChars, if_pos h, List.cons_append]
        rw [parseStrBody.eq_def]; simp [ih]
      · push_neg at h
        simp only [escChars, if_neg (by tauto : ¬(c = '"' ∨ c = '\\')), List.cons_append]
        rw [parseStrBody.eq_def]; simp [h.1, h.2, ih]


theorem numChar_ne {c : Char} (h : numChar c = true) :
    c ≠ '"' ∧ c ≠ '[' ∧ c ≠ '\x7b' ∧ c ≠ 'n' ∧ c ≠ 't' ∧ c ≠ 'f' := by
  refine ⟨?_, ?_, ?_, ?_, ?_, ?_⟩ <;> (rintro rfl; revert h; decide)


theorem headOk_ne {c : Char} (h : headOk c = true) :
    c ≠ ']' ∧ c ≠ '\x7d' ∧ c ≠ ',' := by
  refine ⟨?_, ?_, ?_⟩ <;> (rintro rfl; revert h; decide)


/-- A well-formed value serializes to a non-empty string starting in a
character that `parseVal` dispatches into a value branch. -/
theorem stringify_head (v : Json) (hwf : wfJson v = true) :
    ∃ c cs, (jsonStringify v).data = c :: cs ∧ headOk c = true := by
  cases v with
  | null => exact ⟨'n', ['u', 'l', 'l'], rfl, by decide⟩
  | bool b =>
      cases b
      · exact ⟨'f', ['a', 'l', 's', 'e'], rfl, by decide⟩
      · exact ⟨'t', ['r', 'u', 'e'], rfl, by decide⟩
  | num s =>
      simp only [wfJson, Bool.and_eq_true, Bool.not_eq_true'] at hwf
      obtain ⟨hne, hall⟩ := hwf
      cases hd : s.data with
      | nil => rw [hd] at hne; simp at hne
      | cons c cs =>
          rw [hd] at hall
          simp only [List.all_cons, Bool.and_eq_true] at hall
          exact ⟨c, cs, hd, by simp [headOk, hall.1]⟩
  | str s => exact ⟨'"', escChars s.data ++ ['"'], rfl, by decide⟩
  | arr xs =>
      refine ⟨'[', (stringifyElems xs).data ++ [']'], ?_, by decide⟩
      simp [jsonStringify, String.data_append]
  | obj kvs =>
      refine ⟨'\x7b', (stringifyMembers kvs).data ++ ['\x7d'], ?_, by decide⟩
      simp [jsonStringify, String.data_append]


/-- One-step unfolding of `parseVal` at positive fuel. -/
theorem parseVal_succ (fuel : Nat) (cs : List Char) :
    parseVal (fuel + 1) cs =
      match cs with
      | [] => none
      | c :: rest =>
        if c = '"' then
          (parseStrBody rest).map (fun p => (.str (String.mk p.1), p.2))
        else if c = '[' then
          match rest with
          | ']' :: r => some (.arr [], r)
          | _ => (parseElems fuel rest).map (fun p => (.arr p.1, p.2))
        else if c = '\x7b' then
          match rest with
          | '\x7d' :: r => some (.obj [], r)
          | _ => (parseMembers fuel rest).map (fun p => (.obj p.1, p.2))
        else if c = 'n' then
          match rest with
          | 'u' :: 'l' :: 'l' :: r => some (.null, r)
          | _ => none
        else if c = 't' then
          match rest with
          | 'r' :: 'u' :: 'e' :: r => some (.bool true, r)
          | _ => none
        else if c = 'f' then
          match rest with
          | 'a' :: 'l' :: 's' :: 'e' :: r => some (.bool false, r)
          | _ => none
        else if numChar c then
          some (.num (String.mk (c :: rest.takeWhile numChar)), rest.dropWhile numChar)
        else none := rfl


/-- One-step unfolding of `parseElems` at positive fuel. -/
theorem parseElems_succ (fuel : Nat) (cs : List Char) :
    parseElems (fuel + 1) cs =
      match parseVal fuel cs with
      | none => none
      | some (v, r) =>
        match r with
        | ',' :: r2 =>
            (match parseElems fuel r2 with
             | none => none
             | some (vs, r3) => some (v :: vs, r3))
        | ']' :: r2 => some ([v], r2)
        | _ => none := rfl


/-- One-step unfolding of `parseMembers` at positive fuel. -/
theorem parseMembers_succ (fuel : Nat) (cs : List Char) :
    parseMembers (fuel + 1) cs =
      match cs with
      | '"' :: r =>
        (match parseStrBody r with
         | none => none
         | some (k, r1) =>
           (match r1 with
            | ':' :: r2 =>
              (match parseVal fuel r2 with
               | none => none
               | some (v, r3) =>
                 (match r3 with
                  | ',' :: r4 =>
                      (match parseMembers fuel r4 with
                       | none => none
                       | some (ms, r5) => some ((String.mk k, v) :: ms, r5))
                  | '\x7d' :: r4 => some ([(String.mk k, v)], r4)
                  | _ => none))
            | _ => none))
      | _ => none := rfl


/-- Round-trip of the serializer through the parser, stated for all
three mutual entry points and proved by strong induction on the fuel. -/
theorem parse_round (fuel : Nat) :
    (∀ v rest, wfJson v = true → jsize v ≤ fuel → notNumStart rest →
      parseVal fuel ((jsonStringify v).data ++ rest) = some (v, rest)) ∧
    (∀ xs rest, wfElems xs = true → xs ≠ [] → lsize xs ≤ fuel →
      parseElems fuel ((stringifyElems xs).data ++ (']' :: rest)) = some (xs, rest)) ∧
    (∀ kvs rest, wfMembers kvs = true → kvs ≠ [] → msize kvs ≤ fuel →
      parseMembers fuel ((stringifyMembers kvs).data ++ ('\x7d' :: rest)) = some (kvs, rest)) := by
  induction fuel using Nat.strong_induction_on with
  | _ fuel ih =>
    match fuel with
    | 0 =>
        refine ⟨?_, ?_, ?_⟩
        · intro v _ _ hsz _; exact absurd hsz (by have := jsize_pos v; omega)
        · intro xs _ _ hne hsz; exact absurd hsz (by have := lsize_pos xs hne; omega)
        · intro kvs _ _ hne hsz; exact absurd hsz (by have := msize_pos kvs hne; omega)
    | n + 1 =>
      obtain ⟨ihV, ihE, ihM⟩ := ih n (Nat.lt_succ_self n)
      refine ⟨?_, ?_, ?_⟩
      · -- parseVal
        intro v rest hwf hsz hrest
        cases v with
        | null =>
            rw [show (jsonStringify .null).data = ['n', 'u', 'l', 'l'] from rfl,
              parseVal_succ]
            simp
        | bool b =>
            cases b
            · rw [show (jsonStringify (.bool false)).data = ['f', 'a', 'l', 's', 'e'] from rfl,
                parseVal_succ]
              simp
            · rw [show (jsonStringify (.bool true)).data = ['t', 'r', 'u', 'e'] from rfl,
                parseVal_succ]
              simp
        | num s =>
            simp only [wfJson, Bool.and_eq_true, Bool.not_eq_true'] at hwf
            obtain ⟨hne, hall⟩ := hwf
            cases hd : s.data with
            | nil => rw [hd] at hne; simp at hne
            | cons c cs =>
                rw [show jsonStringify (.num s) = s from rfl, hd]
                rw [hd] at hall
                simp only [List.all_cons, Bool.and_eq_true] at hall
                obtain ⟨hq, hbr, hob, hn, ht, hf⟩ := numChar_ne hall.1
                have htake := takeWhile_append_all (p := numChar) hall.2 hrest
                rw [parseVal_succ]
                simp only [List.cons_append]
                simp [hq, hbr, hob, hn, ht, hf, hall.1, htake.1, htake.2]
                rw [← hd]
        | str s =>
            rw [show (jsonStringify (.str s)).data = '"' :: (escChars s.data ++ ['"']) from rfl,
              parseVal_succ]
            simp only [List.cons_append, List.append_assoc, List.singleton_append]
            simp [parseStrBody_esc s.data rest]
        | arr xs =>
            cases xs with
            | nil =>
                rw [show (jsonStringify (.arr [])).data = ['[', ']'] from by
                  simp [jsonStringify, stringifyElems, String.data_append], parseVal_succ]
                simp
            | cons y ys =>
                have hwf' : wfElems (y :: ys) = true := hwf
                have hwfy : wfJson y = true := by
                  have h2 := hwf'
                  simp only [wfElems, Bool.and_eq_true] at h2
                  exact h2.1
                obtain ⟨c, cs, hdata, hok⟩ := stringify_head y hwfy
                have hcne := headOk_ne hok
                have hsz' : lsize (y :: ys) ≤ n := by
                  simp only [jsize] at hsz; omega
                have hE := ihE (y :: ys) rest hwf' (by simp) hsz'
                have hh : ((stringifyElems (y :: ys)).data ++ ']' :: rest).head? = some c := by
                  cases ys with
                  | nil => simp [stringifyElems, hdata]
                  | cons z zs => simp [stringifyElems, String.data_append, hdata]
                rw [show (jsonStringify (.arr (y :: ys))).data
                      = '[' :: ((stringifyElems (y :: ys)).data ++ [']']) from by
                  simp [jsonStringify, String.data_append], parseVal_succ]
                simp only [List.cons_append, List.append_assoc, List.singleton_append,
                  List.nil_append]
                simp only [eq_false (show (('[' : Char) = '"') → False from by decide), ite_false,
                  eq_true (show (('[' : Char) = '[') from rfl), ite_true]
                split
                · next r heq =>
                    rw [heq] at hh
                    simp only [List.head?_cons, Option.some.injEq] at hh
                    exact absurd hh.symm hcne.1
                · rw [hE]; rfl
        | obj kvs =>
            cases kvs with
            | nil =>
                rw [show (jsonStringify (.obj [])).data = ['\x7b', '\x7d'] from by
                  simp [jsonStringify, stringifyMembers, String.data_append], parseVal_succ]
                simp
            | cons kv kvs' =>
                have hwf' : wfMembers (kv :: kvs') = true := hwf
                have hsz' : msize (kv :: kvs') ≤ n := by
                  simp only [jsize] at hsz; omega
                have hM := ihM (kv :: kvs') rest hwf' (by simp) hsz'
                have hh : ((stringifyMembers (kv :: kvs')).data ++ '\x7d' :: rest).head?
                    = some '"' := by
                  cases kvs' with
                  | nil => simp [stringifyMembers, quoteStr, String.data_append]
                  | cons e es => simp [stringifyMembers, quoteStr, String.data_append]
                rw [show (jsonStringify (.obj (kv :: kvs'))).data
                      = '\x7b' :: ((stringifyMembers (kv :: kvs')).data ++ ['\x7d']) from by
                  simp [jsonStringify, String.data_append], parseVal_succ]
                simp only [List.cons_append, List.append_assoc, List.singleton_append,
                  List.nil_append]
                simp only [eq_false (show (('\x7b' : Char) = '"') → False from by decide),
                  ite_false,
                  eq_false (show (('\x7b' : Char) = '[') → False from by decide),
                  eq_true (show (('\x7b' : Char) = '\x7b') from rfl), ite_true]
                split
                · next r heq =>
                    rw [heq] at hh
                    simp at hh
                · rw [hM]; rfl
      · -- parseElems
        intro xs rest hwf hne hsz
        cases xs with
        | nil => exact absurd rfl hne
        | cons y ys =>
            simp only [wfElems, Bool.and_eq_true] at hwf
            cases ys with
            | nil =>
                have hszy : jsize y ≤ n := by simp only [lsize] at hsz ⊢; omega
                have hV := ihV y (']' :: rest) hwf.1 hszy
                  (notNumStart_cons (by decide) rest)
                rw [parseElems_succ,
                  show (stringifyElems [y] : String) = jsonStringify y from rfl, hV]
                simp
            | cons z zs =>
                have hszy : jsize y ≤ n := by simp only [lsize] at hsz ⊢; omega
                have hszz : lsize (z :: zs) ≤ n := by simp only [lsize] at hsz ⊢; omega
                have hV := ihV y (',' :: ((stringifyElems (z :: zs)).data ++ ']' :: rest))
                  hwf.1 hszy (notNumStart_cons (by decide) _)
                have hE := ihE (z :: zs) rest hwf.2 (by simp) hszz
                rw [parseElems_succ,
                  show (stringifyElems (y :: z :: zs)).data ++ ']' :: rest
                      = (jsonStringify y).data
                        ++ (',' :: ((stringifyElems (z :: zs)).data ++ ']' :: rest)) from by
                    simp [stringifyElems, String.data_append], hV]
                simp [hE]
      · -- parseMembers
        intro kvs rest hwf hne hsz
        cases kvs with
        | nil => exact absurd rfl hne
        | cons kv kvs' =>
            simp only [wfMembers, Bool.and_eq_true] at hwf
            cases kvs' with
            | nil =>
                have hszv : jsize kv.2 ≤ n := by simp only [msize] at hsz ⊢; omega
                have hV := ihV kv.2 ('\x7d' :: rest) hwf.1 hszv
                  (notNumStart_cons (by decide) rest)
                rw [show (stringifyMembers [kv]).data ++ '\x7d' :: rest
                      = '"' :: (escChars kv.1.data
                          ++ ('"' :: (':' :: ((jsonStringify kv.2).data ++ '\x7d' :: rest))))
                    from by simp [stringifyMembers, quoteStr, String.data_append],
                  parseMembers_succ]
                simp [parseStrBody_esc kv.1.data
                  (':' :: ((jsonStringify kv.2).data ++ '\x7d' :: rest)), hV]
            | cons e es =>
                have hszv : jsize kv.2 ≤ n := by simp only [msize] at hsz ⊢; omega
                have hsze : msize (e :: es) ≤ n := by simp only [msize] at hsz ⊢; omega
                have hV := ihV kv.2
                  (',' :: ((stringifyMembers (e :: es)).data ++ '\x7d' :: rest))
                  hwf.1 hszv (notNumStart_cons (by decide) _)
                have hM := ihM (e :: es) rest hwf.2 (by simp) hsze
                rw [show (stringifyMembers (kv :: e :: es)).data ++ '\x7d' :: rest
                      = '"' :: (escChars kv.1.data
                          ++ ('"' :: (':' :: ((jsonStringify kv.2).data
                              ++ (',' :: ((stringifyMembers (e :: es)).data
                                  ++ '\x7d' :: rest))))))
                    from by simp [stringifyMembers, quoteStr, String.data_append],
                  parseMembers_succ]
                simp [parseStrBody_esc kv.1.data
                  (':' :: ((jsonStringify kv.2).data
                    ++ (',' :: ((stringifyMembers (e :: es)).data ++ '\x7d' :: rest)))),
                  hV, hM]


/-- The fuel needed to parse a serialized value is bounded by its
serialized length (plus one for the list entry points). -/
theorem jsize_le_len (bound : Nat) :
    (∀ v, jsize v ≤ bound → wfJson v = true →
      jsize v ≤ (jsonStringify v).data.length) ∧
    (∀ xs, lsize xs ≤ bound → wfElems xs = true →
      lsize xs ≤ (stringifyElems xs).data.length + 1) ∧
    (∀ kvs, msize kvs ≤ bound → wfMembers kvs = true →
      msize kvs ≤ (stringifyMembers kvs).data.length + 1) := by
  induction bound using Nat.strong_induction_on with
  | _ bound ih =>
    match bound with
    | 0 =>
        refine ⟨?_, ?_, ?_⟩
        · intro v hsz _; exact absurd hsz (by have := jsize_pos v; omega)
        · intro xs hsz _
          cases xs with
          | nil => simp [lsize, stringifyElems]
          | cons x xs => exact absurd hsz (by have := lsize_pos (x :: xs) (by simp); omega)
        · intro kvs hsz _
          cases kvs with
          | nil => simp [msize, stringifyMembers]
          | cons kv kvs => exact absurd hsz (by have := msize_pos (kv :: kvs) (by simp); omega)
    | n + 1 =>
      obtain ⟨ihV, ihE, ihM⟩ := ih n (Nat.lt_succ_self n)
      refine ⟨?_, ?_, ?_⟩
      · intro v hsz hwf
        cases v with
        | null => simp [jsize, jsonStringify]
        | bool b => cases b <;> simp [jsize, jsonStringify]
        | num s =>
            simp only [wfJson, Bool.and_eq_true, Bool.not_eq_true'] at hwf
            have : s.data ≠ [] := by
              intro h; rw [h] at hwf; simp at hwf
            have : 1 ≤ s.data.length := by
              cases hd : s.data with
              | nil => exact absurd hd this
              | cons c cs => simp
            simpa [jsize, jsonStringify] using this
        | str s => simp [jsize, jsonStringify, quoteStr]
        | arr xs =>
            have h1 : lsize xs ≤ n := by simp only [jsize] at hsz; omega
            have h2 := ihE xs h1 hwf
            simp only [jsize, jsonStringify, String.data_append, List.length_append]
            simp only [show ("[" : String).data.length = 1 from rfl,
              show ("]" : String).data.length = 1 from rfl]
            omega
        | obj kvs =>
            have h1 : msize kvs ≤ n := by simp only [jsize] at hsz; omega
            have h2 := ihM kvs h1 hwf
            simp only [jsize, jsonStringify, String.data_append, List.length_append]
            simp only [show ("\x7b" : String).data.length = 1 from rfl,
              show ("\x7d" : String).data.length = 1 from rfl]
            omega
      · intro xs hsz hwf
        cases xs with
        | nil => simp [lsize, stringifyElems]
        | cons y ys =>
            simp only [wfElems, Bool.and_eq_true] at hwf
            cases ys with
            | nil =>
                have h1 : jsize y ≤ n := by simp only [lsize] at hsz ⊢; omega
                have h2 := ihV y h1 hwf.1
                simp only [lsize, lsize.eq_1,
                  show stringifyElems [y] = jsonStringify y from rfl]
                omega
            | cons z zs =>
                have h1 : jsize y ≤ n := by simp only [lsize] at hsz ⊢; omega
                have h2 : lsize (z :: zs) ≤ n := by simp only [lsize] at hsz ⊢; omega
                have h3 := ihV y h1 hwf.1
                have h4 := ihE (z :: zs) h2 hwf.2
                simp only [lsize] at h2 h4 ⊢
                simp only [show stringifyElems (y :: z :: zs)
                    = jsonStringify y ++ "," ++ stringifyElems (z :: zs) from rfl,
                  String.data_append, List.length_append,
                  show ("," : String).data.length = 1 from rfl]
                omega
      · intro kvs hsz hwf
        cases kvs with
        | nil => simp [msize, stringifyMembers]
        | cons kv kvs' =>
            simp only [wfMembers, Bool.and_eq_true] at hwf
            have hq : 2 ≤ (quoteStr kv.1).data.length := by
              simp [quoteStr]
            cases kvs' with
            | nil =>
                have h1 : jsize kv.2 ≤ n := by simp only [msize] at hsz ⊢; omega
                have h2 := ihV kv.2 h1 hwf.1
                simp only [msize, msize.eq_1,
                  show stringifyMembers [kv]
                      = quoteStr kv.1 ++ ":" ++ jsonStringify kv.2 from rfl,
                  String.data_append, List.length_append,
                  show (":" : String).data.length = 1 from rfl]
                omega
            | cons e es =>
                have h1 : jsize kv.2 ≤ n := by simp only [msize] at hsz ⊢; omega
                have h2 : msize (e :: es) ≤ n := by simp only [msize] at hsz ⊢; omega
                have h3 := ihV kv.2 h1 hwf.1
                have h4 := ihM (e :: es) h2 hwf.2
                simp only [msize] at h2 h4 ⊢
                simp only [show stringifyMembers (kv :: e :: es)
                    = quoteStr kv.1 ++ ":" ++ jsonStringify kv.2 ++ ","
                      ++ stringifyMembers (e :: es) from rfl,
                  String.data_append, List.length_append,
                  show (":" : String).data.length = 1 from rfl,
                  show ("," : String).data.length = 1 from rfl]
                omega


/-- The host pair round-trips: serializing a well-formed value and
parsing the result gives the value back. -/
theorem jsonParse_stringify (v : Json) (hwf : wfJson v = true) :
    jsonParse (jsonStringify v) = some v := by
  have hlen : jsize v ≤ (jsonStringify v).data.length + 1 := by
    have := ((jsize_le_len (jsize v)).1 v le_rfl hwf)
    omega
  have h := (parse_round ((jsonStringify v).data.length + 1)).1 v [] hwf hlen notNumStart_nil
  rw [List.append_nil] at h
  unfold jsonParse
  rw [h]


/-- Everything the parser produces is well formed. -/
theorem parse_wf (fuel : Nat) :
    (∀ cs v r, parseVal fuel cs = some (v, r) → wfJson v = true) ∧
    (∀ cs vs r, parseElems fuel cs = some (vs, r) → wfElems vs = true) ∧
    (∀ cs ms r, parseMembers fuel cs = some (ms, r) → wfMembers ms = true) := by
  induction fuel using Nat.strong_induction_on with
  | _ fuel ih =>
    match fuel with
    | 0 =>
        refine ⟨?_, ?_, ?_⟩ <;> (intro cs x r h; simp [parseVal, parseElems, parseMembers] at h)
    | n + 1 =>
      obtain ⟨ihV, ihE, ihM⟩ := ih n (Nat.lt_succ_self n)
      refine ⟨?_, ?_, ?_⟩
      · intro cs v r h
        rw [parseVal_succ] at h
        cases cs with
        | nil => simp at h
        | cons c rest =>
            simp only at h
            split at h
            · -- string
              cases hp : parseStrBody rest with
              | none => rw [hp] at h; simp at h
              | some p =>
                  rw [hp] at h
                  simp only [Option.map_some', Option.some.injEq, Prod.mk.injEq] at h
                  rw [← h.1]; rfl
            · split at h
              · -- array
                split at h
                · simp at h; rw [← h.1]; rfl
                · cases hp : parseElems n rest with
                  | none => rw [hp] at h; simp at h
                  | some p =>
                      rw [hp] at h; simp at h
                      have := ihE rest p.1 p.2 (by rw [hp])
                      rw [← h.1]
                      simpa [wfJson] using this
              · split at h
                · -- object
                  split at h
                  · simp at h; rw [← h.1]; rfl
                  · cases hp : parseMembers n rest with
                    | none => rw [hp] at h; simp at h
                    | some p =>
                        rw [hp] at h; simp at h
                        have := ihM rest p.1 p.2 (by rw [hp])
                        rw [← h.1]
                        simpa [wfJson] using this
                · split at h
                  · -- null
                    split at h
                    · simp at h; rw [← h.1]; rfl
                    · simp at h
                  · split at h
                    · -- true
                      split at h
                      · simp at h; rw [← h.1]; rfl
                      · simp at h
                    · split at h
                      · -- false
                        split at h
                        · simp at h; rw [← h.1]; rfl
                        · simp at h
                      · split at h
                        · -- number
                          next hnum =>
                            simp only [Option.some.injEq, Prod.mk.injEq] at h
                            rw [← h.1]
                            simp only [wfJson, Bool.and_eq_true, Bool.not_eq_true']
                            constructor
                            · simp
                            · simp only [List.all_cons, Bool.and_eq_true]
                              refine ⟨hnum, ?_⟩
                              rw [List.all_eq_true]
                              intro a ha
                              exact List.mem_takeWhile_imp ha
                        · simp at h
      · intro cs vs r h
        rw [parseElems_succ] at h
        cases hp : parseVal n cs with
        | none => rw [hp] at h; simp at h
        | some p =>
            rw [hp] at h
            have hv := ihV cs p.1 p.2 (by rw [hp])
            simp only at h
            split at h
            · cases hq : parseElems n _ with
              | none =>
                  rw [hq] at h; simp at h
              | some q =>
                  rw [hq] at h; simp at h
                  have := ihE _ q.1 q.2 (by rw [hq])
                  rw [← h.1]
                  simp only [wfElems, Bool.and_eq_true]
                  exact ⟨hv, this⟩
            · simp at h
              rw [← h.1]
              simp only [wfElems, Bool.and_eq_true]
              exact ⟨hv, by simp [wfElems]⟩
            · simp at h
      · intro cs ms r h
        rw [parseMembers_succ] at h
        split at h
        · cases hp : parseStrBody _ with
          | none => rw [hp] at h; simp at h
          | some p =>
              rw [hp] at h
              simp only at h
              split at h
              · cases hq : parseVal n _ with
                | none => rw [hq] at h; simp at h
                | some q =>
                    rw [hq] at h
                    have hv := ihV _ q.1 q.2 (by rw [hq])
                    simp only at h
                    split at h
                    · cases hm : parseMembers n _ with
                      | none => rw [hm] at h; simp at h
                      | some m =>
                          rw [hm] at h; simp at h
                          have := ihM _ m.1 m.2 (by rw [hm])
                          rw [← h.1]
                          simp only [wfMembers, Bool.and_eq_true]
                          exact ⟨hv, this⟩
                    · simp at h
                      rw [← h.1]
                      simp only [wfMembers, Bool.and_eq_true]
                      exact ⟨hv, by simp [wfMembers]⟩
                    · simp at h
              · simp at h
        · simp at h


/-- A successfully parsed string yields a well-formed value. -/
theorem jsonParse_wf (s : String) (v : Json) (h : jsonParse s = some v) :
    wfJson v = true := by
  unfold jsonParse at h
  split at h
  · next v' heq =>
      injection h with h1
      exact h1 ▸ (parse_wf (s.data.length + 1)).1 s.data v' [] heq
  · simp at h


theorem wfMembers_jGet {kvs : List (String × Json)} {k : String} {v : Json}
    (h : wfMembers kvs = true) (hg : jGetMembers kvs k = some v) :
    wfJson v = true := by
  induction kvs with
  | nil => simp [jGetMembers] at hg
  | cons kv kvs ih =>
      simp only [wfMembers, Bool.and_eq_true] at h
      rw [jGetMembers] at hg
      split at hg
      · next v2 heq =>
          injection hg with h1
          exact ih h.2 (h1 ▸ heq)
      · split at hg
        · injection hg with h1; exact h1 ▸ h.1
        · simp at hg


/-- Well-formedness is inherited by property access. -/
theorem wfJson_jGet {j : Json} {k : String} {v : Json}
    (h : wfJson j = true) (hg : jGet j k = some v) : wfJson v = true := by
  cases j <;> simp [jGet] at hg
  case obj kvs => exact wfMembers_jGet h hg


theorem findRowAux_some {rows : List StateRow} {pid : String} {n i : Nat} {cell : String}
    (h : findRowAux rows pid n = some (i, cell)) :
    1 ≤ i ∧ i ≤ n ∧ rows[i]? = some (pid, cell) := by
  induction n with
  | zero => simp [findRowAux] at h
  | succ m ih =>
      rw [findRowAux] at h
      split at h
      · next r hr =>
          split at h
          · next hk =>
              injection h with h1
              injection h1 with h2 h3
              subst h2
              refine ⟨by omega, le_rfl, ?_⟩
              rw [hr, ← hk, ← h3]
          · next hk =>
              obtain ⟨a, b, c⟩ := ih h
              exact ⟨a, by omega, c⟩
      · obtain ⟨a, b, c⟩ := ih h
        exact ⟨a, by omega, c⟩


theorem findRowAux_none {rows : List StateRow} {pid : String} {n : Nat}
    (h : findRowAux rows pid n = none) :
    ∀ j r, 1 ≤ j → j ≤ n → rows[j]? = some r → r.1 ≠ pid := by
  induction n with
  | zero => intro j r h1 h2 _; omega
  | succ m ih =>
      rw [findRowAux] at h
      intro j r h1 h2 hj
      split at h
      · next r2 hr2 =>
          split at h
          · simp at h
          · next hk =>
              by_cases hjm : j = m + 1
              · subst hjm; rw [hj] at hr2; injection hr2 with h3; exact h3 ▸ hk
              · exact ih h j r h1 (by omega) hj
      · next hr2 =>
          by_cases hjm : j = m + 1
          · subst hjm; rw [hj] at hr2; cases hr2
          · exact ih h j r h1 (by omega) hj


theorem findRowAux_isSome {rows : List StateRow} {pid : String} {n j : Nat} {cell : String}
    (hj : rows[j]? = some (pid, cell)) (h1 : 1 ≤ j) (h2 : j ≤ n) :
    (findRowAux rows pid n).isSome := by
  cases hf : findRowAux rows pid n with
  | some p => simp
  | none => exact absurd rfl (findRowAux_none hf j (pid, cell) h1 h2 hj)


/-- Appending a fresh bottom row makes it the row the bottom-up scan
finds first. -/
theorem findFromBottom_append (rows : List StateRow) (pid : String) (cell : String)
    (hne : rows ≠ []) :
    findFromBottom (rows ++ [(pid, cell)]) pid = some (rows.length, cell) := by
  have hlen : (rows ++ [(pid, cell)]).length = rows.length + 1 := by simp
  unfold findFromBottom
  rw [hlen]
  have hpos : 1 ≤ rows.length := by
    cases rows with
    | nil => exact absurd rfl hne
    | cons a l => simp
  obtain ⟨m, hm⟩ : ∃ m, rows.length = m + 1 := ⟨rows.length - 1, by omega⟩
  rw [show rows.length + 1 - 1 = m + 1 from by omega, findRowAux]
  rw [show (rows ++ [(pid, cell)])[m + 1]? = some (pid, cell) from by
    rw [List.getElem?_append_right (by omega : rows.length ≤ m + 1),
      show m + 1 - rows.length = 0 from by omega]
    rfl]
  simp
  omega


theorem setCellB_length (rows : List StateRow) (i : Nat) (v : String) :
    (setCellB rows i v).length = rows.length := by
  unfold setCellB
  split
  · rw [List.length_set]
  · rfl


theorem setCellB_getElem_ne (rows : List StateRow) (i j : Nat) (v : String) (h : i ≠ j) :
    (setCellB rows i v)[j]? = rows[j]? := by
  unfold setCellB
  split
  · rw [List.getElem?_set_ne h]
  · rfl


theorem setCellB_getElem_self {rows : List StateRow} {i : Nat} {r : StateRow} (v : String)
    (h : rows[i]? = some r) :
    (setCellB rows i v)[i]? = some (r.1, v) := by
  have hlt : i < rows.length := by
    by_contra hge
    rw [List.getElem?_eq_none (by omega)] at h
    cases h
  unfold setCellB
  rw [h]
  rw [List.getElem?_set_self' ]
  simp [hlt]


/-- Overwriting the payload cell of the row the scan finds makes the
scan find the same row with the new payload. -/
theorem findRowAux_setCellB {rows : List StateRow} {pid : String} {n i : Nat} {cell : String}
    (h : findRowAux rows pid n = some (i, cell)) (v : String) :
    findRowAux (setCellB rows i v) pid n = some (i, v) := by
  induction n with
  | zero => simp [findRowAux] at h
  | succ m ih =>
      rw [findRowAux] at h
      rw [findRowAux]
      split at h
      · next r hr =>
          split at h
          · next hk =>
              injection h with h1
              injection h1 with h2 h3
              subst h2
              rw [setCellB_getElem_self v hr]
              simp [hk]
          · next hk =>
              have hle := (findRowAux_some h).2.1
              rw [setCellB_getElem_ne rows i (m + 1) v (by omega), hr]
              simp only [hk, if_false]
              exact ih h
      · next hr =>
          have hle := (findRowAux_some h).2.1
          rw [setCellB_getElem_ne rows i (m + 1) v (by omega), hr]
          exact ih h


theorem asNonemptyStr_ne_empty (v : Option Json) : asNonemptyStr v ≠ some "" := by
  unfold asNonemptyStr
  split
  · next s =>
      split
      · simp
      · next hs => intro h; injection h with h1; exact hs h1
  · simp


/-- The optional fields of every extracted record are `none` or a
non-empty string (the extractor collapses `""` through `|| null`). -/
theorem extractNotionInfo_no_empty (pd : Json) :
    (extractNotionInfo pd).status ≠ some "" ∧
    (extractNotionInfo pd).tanto ≠ some "" ∧
    (extractNotionInfo pd).sharoushi ≠ some "" := by
  cases h : jsTruthy (jGet pd "properties") <;>
    simp [extractNotionInfo, h, getStatusName, getSelectName, asNonemptyStr_ne_empty]


/-- The business fields compared by the notify-worthy predicates depend
only on the `properties` value: re-wrapping stored properties as
`{ properties: props }` reproduces them. -/
theorem extractNotionInfo_props_only {pd props : Json}
    (h : jGet pd "properties" = some props) :
    (extractNotionInfo (Json.obj [("properties", props)])).status
        = (extractNotionInfo pd).status ∧
    (extractNotionInfo (Json.obj [("properties", props)])).tanto
        = (extractNotionInfo pd).tanto ∧
    (extractNotionInfo (Json.obj [("properties", props)])).sharoushi
        = (extractNotionInfo pd).sharoushi := by
  have hw : jGet (Json.obj [("properties", props)]) "properties" = some props := by
    simp [jGet, jGetMembers]
  cases ht : jsTruthy (some props) <;>
    simp [extractNotionInfo, hw, h, ht]


/-- One-step unfolding of `parseWebhookEvent` on a present event. -/
theorem parseWebhookEvent_some (ev : Json) :
    parseWebhookEvent (some ev) =
      match contentsOf ev with
      | none =>
          { rawContents := "e.postData or e.postData.contents is missing",
            fullEventString := jsonStringify ev, notionPageData := none }
      | some rawContents =>
          match jsonParse rawContents with
          | none =>
              { rawContents, fullEventString := jsonStringify ev, notionPageData := none }
          | some eventData =>
              if jsTruthy (jGet eventData "data") then
                { rawContents, fullEventString := jsonStringify ev,
                  notionPageData := jGet eventData "data" }
              else
                { rawContents, fullEventString := jsonStringify ev,
                  notionPageData := none } := rfl


/-- Page data delivered by `parseWebhookEvent` comes from `JSON.parse`,
hence is well formed. -/
theorem parseWebhookEvent_wf {e : Option Json} {pd : Json}
    (h : (parseWebhookEvent e).notionPageData = some pd) : wfJson pd = true := by
  cases e with
  | none => simp [parseWebhookEvent] at h
  | some ev =>
      rw [parseWebhookEvent_some] at h
      cases hc : contentsOf ev with
      | none => simp [hc] at h
      | some raw =>
          simp only [hc] at h
          cases hp : jsonParse raw with
          | none => simp [hp] at h
          | some ed =>
              simp only [hp] at h
              split at h
              · exact wfJson_jGet (jsonParse_wf raw ed hp) h
              · simp at h


theorem jsonParse_empty : jsonParse "" = none := rfl


theorem stateRows0_ne_nil (rows : List StateRow) :
    (if rows.isEmpty then [stateHeader] else rows) ≠ [] := by
  split
  · simp
  · next h => simpa [List.isEmpty_iff] using h


/-- Effect of the orchestrator's own upsert wiring on a later lookup,
serializable-properties case: the lookup finds exactly the stored
properties. -/
theorem getPreviousState_update {rows : List StateRow} {pid : String} {props : Json}
    (hwf : wfJson props = true) (hne : rows ≠ []) :
    ∃ i : Nat, getPreviousState
      (updateCurrentState rows pid (some props)
        (match getPreviousState rows pid with | some s => s.rowIndex | none => -1)) pid
      = some ⟨(i : Int) + 1, props⟩ := by
  cases hf : findFromBottom rows pid with
  | none =>
      have hprev : getPreviousState rows pid = none := by
        unfold getPreviousState; rw [hf]
      refine ⟨rows.length, ?_⟩
      rw [hprev]
      unfold updateCurrentState
      simp only [stringifyOpt, show ¬((-1 : Int) > -1) from by omega, if_false]
      unfold getPreviousState
      rw [findFromBottom_append rows pid (jsonStringify props) hne]
      simp [jsonParse_stringify props hwf]
  | some p =>
      obtain ⟨i0, cell⟩ := p
      cases hp : jsonParse cell with
      | none =>
          have hprev : getPreviousState rows pid = none := by
            unfold getPreviousState; rw [hf]; simp [hp]
          refine ⟨rows.length, ?_⟩
          rw [hprev]
          unfold updateCurrentState
          simp only [stringifyOpt, show ¬((-1 : Int) > -1) from by omega, if_false]
          unfold getPreviousState
          rw [findFromBottom_append rows pid (jsonStringify props) hne]
          simp [jsonParse_stringify props hwf]
      | some p0 =>
          have hprev : getPreviousState rows pid = some ⟨(i0 : Int) + 1, p0⟩ := by
            unfold getPreviousState; rw [hf]; simp [hp]
          refine ⟨i0, ?_⟩
          rw [hprev]
          unfold updateCurrentState
          simp only [stringifyOpt, show ((i0 : Int) + 1 > -1) from by omega, if_true]
          have htn : ((i0 : Int) + 1 - 1).toNat = i0 := by omega
          rw [htn]
          unfold getPreviousState findFromBottom
          rw [setCellB_length]
          have hfa : findRowAux rows pid (rows.length - 1) = some (i0, cell) := hf
          rw [findRowAux_setCellB hfa (jsonStringify props)]
          simp [jsonParse_stringify props hwf]


/-- Effect of the orchestrator's own upsert wiring on a later lookup,
missing-properties case: the blank cell fails to parse, so the lookup
fails open. -/
theorem getPreviousState_update_blank {rows : List StateRow} {pid : String}
    (hne : rows ≠ []) :
    getPreviousState
      (updateCurrentState rows pid none
        (match getPreviousState rows pid with | some s => s.rowIndex | none => -1)) pid
      = none := by
  cases hf : findFromBottom rows pid with
  | none =>
      have hprev : getPreviousState rows pid = none := by
        unfold getPreviousState; rw [hf]
      rw [hprev]
      unfold updateCurrentState
      simp only [stringifyOpt, show ¬((-1 : Int) > -1) from by omega, if_false]
      unfold getPreviousState
      rw [findFromBottom_append rows pid "" hne]
      simp [jsonParse_empty]
  | some p =>
      obtain ⟨i0, cell⟩ := p
      cases hp : jsonParse cell with
      | none =>
          have hprev : getPreviousState rows pid = none := by
            unfold getPreviousState; rw [hf]; simp [hp]
          rw [hprev]
          unfold updateCurrentState
          simp only [stringifyOpt, show ¬((-1 : Int) > -1) from by omega, if_false]
          unfold getPreviousState
          rw [findFromBottom_append rows pid "" hne]
          simp [jsonParse_empty]
      | some p0 =>
          have hprev : getPreviousState rows pid = some ⟨(i0 : Int) + 1, p0⟩ := by
            unfold getPreviousState; rw [hf]; simp [hp]
          rw [hprev]
          unfold updateCurrentState
          simp only [stringifyOpt, show ((i0 : Int) + 1 > -1) from by omega, if_true]
          have htn : ((i0 : Int) + 1 - 1).toNat = i0 := by omega
          rw [htn]
          unfold getPreviousState findFromBottom
          rw [setCellB_length]
          have hfa : findRowAux rows pid (rows.length - 1) = some (i0, cell) := hf
          rw [findRowAux_setCellB hfa ""]
          simp [jsonParse_empty]


/-- One-step unfolding of `sendDiscordMessage` on a present URL. -/
theorem sendDiscordMessage_some_eq (u : String) (payload : String)
    (net : String → Option String) :
    sendDiscordMessage (some u) payload net =
      if u = "" ∨ ¬ u.startsWith webhookUrlStart then
        { status := "URL未設定/不正のためスキップ", error := none, sent := [] }
      else
        match net u with
        | none =>
            { status := "送信成功", error := none,
              sent := [(u, jsonStringify (Json.obj [("content", Json.str payload)]))] }
        | some errText =>
            { status := "送信エラー", error := some errText,
              sent := [(u, jsonStringify (Json.obj [("content", Json.str payload)]))] } := rfl


theorem sendDiscordMessage_skip (url : Option String) (payload : String)
    (net : String → Option String) (h : urlInvalid url = true) :
    sendDiscordMessage url payload net
      = { status := "URL未設定/不正のためスキップ", error := none, sent := [] } := by
  cases url with
  | none => rfl
  | some u =>
      simp only [urlInvalid, Bool.or_eq_true, decide_eq_true_eq,
        Bool.not_eq_true'] at h
      rw [sendDiscordMessage_some_eq, if_pos]
      rcases h with h | h
      · exact Or.inl h
      · exact Or.inr (by simp [h])


/-- The success path of the Orchestrator, unfolded. -/
theorem processWebhook_ok (sp : ScriptProps) (cfg : Config) (e : Option Json)
    (net : String → Option String) (sheets : Sheets) (pid : String) (pd : Json)
    (hcfg : loadConfig sp = .ok cfg)
    (hpid : pageIdOf (parseWebhookEvent e).notionPageData = some (pid, pd)) :
    processWebhook sp e net sheets =
      (let stateRows0 := if sheets.stateRows.isEmpty then [stateHeader] else sheets.stateRows
       let currentInfo := extractNotionInfo pd
       let previousState := getPreviousState stateRows0 pid
       let previousInfo := previousState.map
         (fun s => extractNotionInfo (Json.obj [("properties", s.properties)]))
       let hn := handleNotifications previousInfo currentInfo cfg net
       let overall := if hn.1.any (fun r => optStrTruthy r.error) then "一部エラー" else "成功"
       let stateRows1 := updateCurrentState stateRows0 pid (jGet pd "properties")
         (match previousState with | some s => s.rowIndex | none => -1)
       { status := overall, message := "Webhook processed.",
         sheets := { logRows := sheets.logRows ++ [{
                         kigyoMei := currentInfo.kigyoMei, status := currentInfo.status,
                         tanto := currentInfo.tanto, overallStatus := overall,
                         discordSummary := discordSummaryOf hn.1,
                         rawContents := (parseWebhookEvent e).rawContents,
                         fullEventString := (parseWebhookEvent e).fullEventString }],
                     stateRows := stateRows1 },
         results := hn.1, sent := hn.2 }) := by
  unfold processWebhook
  rw [hcfg]
  simp only
  rw [hpid]


/-- The fatal-parse path of the Orchestrator, unfolded. -/
theorem processWebhook_fatal (sp : ScriptProps) (cfg : Config) (e : Option Json)
    (net : String → Option String) (sheets : Sheets)
    (hcfg : loadConfig sp = .ok cfg)
    (hpid : pageIdOf (parseWebhookEvent e).notionPageData = none) :
    processWebhook sp e net sheets =
      { status := "致命的エラー", message := "Webhook processed.",
        sheets := { logRows := sheets.logRows ++ [{
                        kigyoMei := "N/A", status := some "N/A", tanto := some "N/A",
                        overallStatus := "致命的エラー", discordSummary := "",
                        rawContents := (parseWebhookEvent e).rawContents,
                        fullEventString := (parseWebhookEvent e).fullEventString }],
                    stateRows := if sheets.stateRows.isEmpty then [stateHeader]
                      else sheets.stateRows },
        results := [], sent := [] } := by
  unfold processWebhook
  rw [hcfg]
  simp only
  rw [hpid]


/-- C3, as written, fails: with `properties` missing the extractor
returns `null` (not a placeholder string) for status, assignee and
liaison status; only the company name, URL and timestamp columns get
explicit placeholders. -/
theorem claim_C3_counterexample :
    (extractNotionInfo (Json.obj [("id", Json.str "x")])).status = none ∧
    (extractNotionInfo (Json.obj [("id", Json.str "x")])).tanto = none ∧
    (extractNotionInfo (Json.obj [("id", Json.str "x")])).sharoushi = none ∧
    (extractNotionInfo (Json.obj [("id", Json.str "x")])).kigyoMei = "企業名不明" :=
  ⟨rfl, rfl, rfl, rfl⟩


/-- C3 (amended): for every page-data object whose `properties` map is
missing (falsy), the Property Extractor returns, without throwing, the
record whose company name, URL and timestamp carry the explicit
placeholders 企業名不明 / URL不明 / 日時不明 and whose status, assignee
and liaison-status fields are null. -/
theorem claim_C3 (pd : Json) (h : jsTruthy (jGet pd "properties") = false) :
    extractNotionInfo pd =
      { kigyoMei := "企業名不明", status := none, tanto := none, sharoushi := none,
        pageUrl := "URL不明", lastEditedTime := "日時不明" } := by
  simp [extractNotionInfo, h]


theorem claim_C3_witness :
    jsTruthy (jGet (Json.obj []) "properties") = false ∧
    extractNotionInfo (Json.obj []) =
      { kigyoMei := "企業名不明", status := none, tanto := none, sharoushi := none,
        pageUrl := "URL不明", lastEditedTime := "日時不明" } :=
  ⟨rfl, claim_C3 (Json.obj []) rfl⟩


/-- C9: for every pair of extracted records, a relevant field (status
or assignee) that is unchanged is rendered by the Composer as the plain
current-value line, not the arrow transition line; the full message is
the concatenation of header, company line, the two field lines, the
timestamp line and the URL footer. -/
theorem claim_C9 (p c : NotionInfo) :
    (p.status = c.status →
      statusLine (orNa p.status) (orNa c.status)
        = "**商談ステータス:** " ++ orNa c.status ++ "\n") ∧
    (p.tanto = c.tanto →
      tantoLine (orNa p.tanto) (orNa c.tanto)
        = "**担当:** " ++ orNa c.tanto ++ "\n") ∧
    createStatusChangeMessage (some p) c
      = "**【商談ステータス】更新通知** 📢\n"
        ++ "------------------------------------\n"
        ++ ("**企業名:** " ++ c.kigyoMei ++ "\n"
            ++ statusLine (orNa p.status) (orNa c.status)
            ++ tantoLine (orNa p.tanto) (orNa c.tanto)
            ++ "**最終更新日時:** " ++ c.lastEditedTime ++ "\n")
        ++ "------------------------------------\n"
        ++ "詳細はこちら: " ++ c.pageUrl := by
  refine ⟨?_, ?_, rfl⟩
  · intro h; rw [h]; simp [statusLine]
  · intro h; rw [h]; simp [tantoLine]


theorem claim_C9_witness :
    (statusLine (orNa (some "商談中")) (orNa (some "商談中"))
      = "**商談ステータス:** " ++ orNa (some "商談中") ++ "\n") ∧
    (tantoLine (orNa (some "田中")) (orNa (some "田中"))
      = "**担当:** " ++ orNa (some "田中") ++ "\n") :=
  ⟨(claim_C9 ⟨"A", some "商談中", some "田中", none, "u", "d"⟩
      ⟨"A", some "商談中", some "田中", none, "u", "d"⟩).1 rfl,
   (claim_C9 ⟨"A", some "商談中", some "田中", none, "u", "d"⟩
      ⟨"A", some "商談中", some "田中", none, "u", "d"⟩).2.1 rfl⟩


/-- C10: every invocation returns one of exactly three overall
statuses, the message field is always the constant
"Webhook processed.", and `doPost` serializes exactly these two fields
into the HTTP response body — no error detail reaches the caller. -/
theorem claim_C10 (sp : ScriptProps) (e : Option Json)
    (net : String → Option String) (sheets : Sheets) :
    ((processWebhook sp e net sheets).status = "成功" ∨
     (processWebhook sp e net sheets).status = "一部エラー" ∨
     (processWebhook sp e net sheets).status = "致命的エラー") ∧
    (processWebhook sp e net sheets).message = "Webhook processed." ∧
    doPost sp e net sheets = jsonStringify (Json.obj
      [("status", Json.str (processWebhook sp e net sheets).status),
       ("message", Json.str (processWebhook sp e net sheets).message)]) := by
  refine ⟨?_, ?_, rfl⟩
  · cases hcfg : loadConfig sp with
    | error msg =>
        unfold processWebhook
        rw [hcfg]
        simp
    | ok cfg =>
        cases hpid : pageIdOf (parseWebhookEvent e).notionPageData with
        | none =>
            rw [processWebhook_fatal sp cfg e net sheets hcfg hpid]
            simp
        | some p =>
            rw [processWebhook_ok sp cfg e net sheets p.1 p.2 hcfg (by rw [hpid])]
            simp only
            have hcase : ∀ b : Bool,
                (if b = true then "一部エラー" else "成功") = "成功" ∨
                (if b = true then "一部エラー" else "成功") = "一部エラー" ∨
                (if b = true then "一部エラー" else "成功") = "致命的エラー" := by
              intro b
              cases b
              · left; rfl
              · right; left; rfl
            exact hcase _
  · cases hcfg : loadConfig sp with
    | error msg =>
        unfold processWebhook
        rw [hcfg]
    | ok cfg =>
        cases hpid : pageIdOf (parseWebhookEvent e).notionPageData with
        | none =>
            rw [processWebhook_fatal sp cfg e net sheets hcfg hpid]
        | some p =>
            rw [processWebhook_ok sp cfg e net sheets p.1 p.2 hcfg (by rw [hpid])]


/-- With both endpoints missing or invalid, every notification result
carries a null error (the skip outcome). -/
theorem handleNotifications_error_none (previousInfo : Option NotionInfo)
    (currentInfo : NotionInfo) (cfg : Config) (net : String → Option String)
    (hu1 : urlInvalid cfg.discordUrl = true)
    (hu2 : urlInvalid cfg.discordUrlSharoushi = true) :
    ∀ r ∈ (handleNotifications previousInfo currentInfo cfg net).1, r.error = none := by
  intro r hr
  unfold handleNotifications at hr
  simp only [List.mem_append] at hr
  rcases hr with hr | hr
  · by_cases hb : needsStatusNotification previousInfo currentInfo = true
    · simp only [hb, if_true, sendDiscordMessage_skip cfg.discordUrl
        (createStatusChangeMessage previousInfo currentInfo) net hu1,
        List.mem_singleton] at hr
      rw [hr]
    · simp [hb] at hr
  · by_cases hb : needsSharoushiNotification previousInfo currentInfo = true
    · simp only [hb, if_true, sendDiscordMessage_skip cfg.discordUrlSharoushi
        (createSharoushiUpdateMessage previousInfo currentInfo) net hu2,
        List.mem_singleton] at hr
      rw [hr]
    · simp [hb] at hr


/-- C7: a missing or malformed notification endpoint makes
`sendDiscordMessage` return the skip outcome with a null error and no
network fetch; and when both endpoints are missing/invalid and the
payload itself is fine, the overall status of the invocation stays
成功. -/
theorem claim_C7 :
    (∀ (url : Option String) (payload : String) (net : String → Option String),
      urlInvalid url = true →
        sendDiscordMessage url payload net
          = { status := "URL未設定/不正のためスキップ", error := none, sent := [] }) ∧
    (∀ (sp : ScriptProps) (cfg : Config) (e : Option Json)
        (net : String → Option String) (sheets : Sheets) (pid : String) (pd : Json),
      loadConfig sp = .ok cfg →
      pageIdOf (parseWebhookEvent e).notionPageData = some (pid, pd) →
      urlInvalid cfg.discordUrl = true →
      urlInvalid cfg.discordUrlSharoushi = true →
      (processWebhook sp e net sheets).status = "成功") := by
  constructor
  · exact sendDiscordMessage_skip
  · intro sp cfg e net sheets pid pd hcfg hpid hu1 hu2
    rw [processWebhook_ok sp cfg e net sheets pid pd hcfg hpid]
    simp only
    rw [if_neg]
    intro hany
    rw [List.any_eq_true] at hany
    obtain ⟨r, hr, herr⟩ := hany
    have hnone := handleNotifications_error_none _ _ cfg net hu1 hu2 r hr
    rw [hnone] at herr
    simp [optStrTruthy] at herr


theorem claim_C7_witness :
    (sendDiscordMessage none "m" (fun _ => none)
      = { status := "URL未設定/不正のためスキップ", error := none, sent := [] }) ∧
    (processWebhook ⟨some "S", none, none, none⟩
      (some (Json.obj [("postData", Json.obj [("contents",
        Json.str "\x7b\"data\":\x7b\"id\":\"p1\"\x7d\x7d")])]))
      (fun _ => none) ⟨[], []⟩).status = "成功" :=
  ⟨claim_C7.1 none "m" (fun _ => none) rfl,
   claim_C7.2 ⟨some "S", none, none, none⟩
     { spreadsheetId := "S", logSheetName := "NotionWebhookLog",
       stateSheetName := "ページ状態履歴", discordUrl := none, discordUrlSharoushi := none }
     (some (Json.obj [("postData", Json.obj [("contents",
       Json.str "\x7b\"data\":\x7b\"id\":\"p1\"\x7d\x7d")])]))
     (fun _ => none) ⟨[], []⟩ "p1" (Json.obj [("id", Json.str "p1")])
     rfl (by rfl) rfl rfl⟩


theorem optStrTruthy_iff {o : Option String} (h : o ≠ some "") :
    optStrTruthy o = true ↔ o ≠ none := by
  cases o with
  | none => simp [optStrTruthy]
  | some s =>
      simp only [optStrTruthy, decide_eq_true_eq, ne_eq, reduceCtorEq,
        not_false_iff, iff_true]
      intro hs
      exact h (by rw [hs])


/-- The notify-worthy predicate for status/assignee, characterised. -/
theorem needsStatus_iff (p? : Option NotionInfo) (c : NotionInfo)
    (h1 : c.status ≠ some "") (h2 : c.tanto ≠ some "") :
    needsStatusNotification p? c = true ↔
      (p? = none ∧ (c.status ≠ none ∨ c.tanto ≠ none)) ∨
      (∃ p, p? = some p ∧ (p.status ≠ c.status ∨ p.tanto ≠ c.tanto)) := by
  cases p? with
  | none =>
      simp only [needsStatusNotification, Bool.or_eq_true,
        optStrTruthy_iff h1, optStrTruthy_iff h2]
      simp
  | some p =>
      simp only [needsStatusNotification, Bool.or_eq_true, decide_eq_true_eq]
      constructor
      · intro h; exact Or.inr ⟨p, rfl, h⟩
      · rintro (⟨h, _⟩ | ⟨q, hq, h⟩)
        · cases h
        · injection hq with hq; exact hq ▸ h


/-- The notify-worthy predicate for the liaison status, characterised. -/
theorem needsSharoushi_iff (p? : Option NotionInfo) (c : NotionInfo)
    (h3 : c.sharoushi ≠ some "") :
    needsSharoushiNotification p? c = true ↔
      (p? = none ∧ c.sharoushi ≠ none) ∨
      (∃ p, p? = some p ∧ p.sharoushi ≠ c.sharoushi) := by
  cases p? with
  | none =>
      simp only [needsSharoushiNotification, optStrTruthy_iff h3]
      simp
  | some p =>
      simp only [needsSharoushiNotification, decide_eq_true_eq]
      constructor
      · intro h; exact Or.inr ⟨p, rfl, h⟩
      · rintro (⟨h, _⟩ | ⟨q, hq, h⟩)
        · cases h
        · injection hq with hq; exact hq ▸ h


/-- C1: the status/assignee notification is dispatched iff the page is
new with a truthy status or assignee, or existing with either field
changed; the liaison notification iff the page is new with a truthy
liaison status, or existing with the liaison status changed; the two
predicates are independent, so the result list holds zero, one or two
entries accordingly.  (For extracted records the optional fields are
never `some ""`; the hypotheses record that.) -/
theorem claim_C1 (p? : Option NotionInfo) (c : NotionInfo) (cfg : Config)
    (net : String → Option String)
    (h1 : c.status ≠ some "") (h2 : c.tanto ≠ some "") (h3 : c.sharoushi ≠ some "") :
    (((handleNotifications p? c cfg net).1.any
        (fun r => r.type == "ステータス・担当者変更")) = true ↔
      (p? = none ∧ (c.status ≠ none ∨ c.tanto ≠ none)) ∨
      (∃ p, p? = some p ∧ (p.status ≠ c.status ∨ p.tanto ≠ c.tanto))) ∧
    (((handleNotifications p? c cfg net).1.any
        (fun r => r.type == "社労士連携")) = true ↔
      (p? = none ∧ c.sharoushi ≠ none) ∨
      (∃ p, p? = some p ∧ p.sharoushi ≠ c.sharoushi)) ∧
    (handleNotifications p? c cfg net).1.length =
      (if needsStatusNotification p? c then 1 else 0) +
      (if needsSharoushiNotification p? c then 1 else 0) := by
  have e1 : (("ステータス・担当者変更" : String) == "社労士連携") = false := by decide
  have e2 : (("社労士連携" : String) == "ステータス・担当者変更") = false := by decide
  have hA : ((handleNotifications p? c cfg net).1.any
      (fun r => r.type == "ステータス・担当者変更")) = needsStatusNotification p? c := by
    by_cases hb1 : needsStatusNotification p? c = true <;>
      by_cases hb2 : needsSharoushiNotification p? c = true <;>
        simp [handleNotifications, hb1, hb2, e2]
  have hB : ((handleNotifications p? c cfg net).1.any
      (fun r => r.type == "社労士連携")) = needsSharoushiNotification p? c := by
    by_cases hb1 : needsStatusNotification p? c = true <;>
      by_cases hb2 : needsSharoushiNotification p? c = true <;>
        simp [handleNotifications, hb1, hb2, e1]
  refine ⟨?_, ?_, ?_⟩
  · rw [hA]; exact needsStatus_iff p? c h1 h2
  · rw [hB]; exact needsSharoushi_iff p? c h3
  · by_cases hb1 : needsStatusNotification p? c = true <;>
      by_cases hb2 : needsSharoushiNotification p? c = true <;>
        simp [handleNotifications, hb1, hb2]


theorem claim_C1_witness :
    (((handleNotifications none ⟨"A", some "S", none, none, "u", "d"⟩
        ⟨"S", "L", "ST", none, none⟩ (fun _ => none)).1.any
        (fun r => r.type == "ステータス・担当者変更")) = true ↔
      ((none : Option NotionInfo) = none ∧
        ((⟨"A", some "S", none, none, "u", "d"⟩ : NotionInfo).status ≠ none ∨
         (⟨"A", some "S", none, none, "u", "d"⟩ : NotionInfo).tanto ≠ none)) ∨
      (∃ p, (none : Option NotionInfo) = some p ∧
        (p.status ≠ (⟨"A", some "S", none, none, "u", "d"⟩ : NotionInfo).status ∨
         p.tanto ≠ (⟨"A", some "S", none, none, "u", "d"⟩ : NotionInfo).tanto))) ∧
    (((handleNotifications none ⟨"A", some "S", none, none, "u", "d"⟩
        ⟨"S", "L", "ST", none, none⟩ (fun _ => none)).1.any
        (fun r => r.type == "社労士連携")) = true ↔
      ((none : Option NotionInfo) = none ∧
        (⟨"A", some "S", none, none, "u", "d"⟩ : NotionInfo).sharoushi ≠ none) ∨
      (∃ p, (none : Option NotionInfo) = some p ∧
        p.sharoushi ≠ (⟨"A", some "S", none, none, "u", "d"⟩ : NotionInfo).sharoushi)) ∧
    (handleNotifications none ⟨"A", some "S", none, none, "u", "d"⟩
        ⟨"S", "L", "ST", none, none⟩ (fun _ => none)).1.length =
      (if needsStatusNotification none ⟨"A", some "S", none, none, "u", "d"⟩ then 1 else 0) +
      (if needsSharoushiNotification none ⟨"A", some "S", none, none, "u", "d"⟩ then 1 else 0) :=
  claim_C1 none ⟨"A", some "S", none, none, "u", "d"⟩ ⟨"S", "L", "ST", none, none⟩
    (fun _ => none) (by decide) (by decide) (by decide)


/-- C4: a stored cell that fails to deserialize makes `getPreviousState`
return `null` (fail-open); at the Orchestrator level such an invocation
still completes non-fatally and treats the page as new, so notifications
remain possible. -/
theorem claim_C4 :
    (∀ (stateSheet : List StateRow) (pid : String) (i : Nat) (cell : String),
      findFromBottom stateSheet pid = some (i, cell) → jsonParse cell = none →
      getPreviousState stateSheet pid = none) ∧
    (∀ (sp : ScriptProps) (cfg : Config) (e : Option Json)
        (net : String → Option String) (sheets : Sheets)
        (pid : String) (pd : Json) (i : Nat) (cell : String),
      loadConfig sp = .ok cfg →
      pageIdOf (parseWebhookEvent e).notionPageData = some (pid, pd) →
      findFromBottom (if sheets.stateRows.isEmpty then [stateHeader]
        else sheets.stateRows) pid = some (i, cell) →
      jsonParse cell = none →
      (processWebhook sp e net sheets).status ≠ "致命的エラー" ∧
      (processWebhook sp e net sheets).results
        = (handleNotifications none (extractNotionInfo pd) cfg net).1) := by
  have core : ∀ (stateSheet : List StateRow) (pid : String) (i : Nat) (cell : String),
      findFromBottom stateSheet pid = some (i, cell) → jsonParse cell = none →
      getPreviousState stateSheet pid = none := by
    intro stateSheet pid i cell hf hp
    unfold getPreviousState
    rw [hf]
    simp [hp]
  refine ⟨core, ?_⟩
  intro sp cfg e net sheets pid pd i cell hcfg hpid hf hp
  rw [processWebhook_ok sp cfg e net sheets pid pd hcfg hpid]
  simp only
  have hprev : getPreviousState (if sheets.stateRows.isEmpty then [stateHeader]
      else sheets.stateRows) pid = none := core _ pid i cell hf hp
  rw [hprev]
  simp only [Option.map_none']
  refine ⟨?_, by trivial⟩
  split
  · decide
  · decide


theorem claim_C4_witness :
    (getPreviousState [stateHeader, ("p1", "not json")] "p1" = none) ∧
    ((processWebhook ⟨some "S", none, none, none⟩
        (some (Json.obj [("postData", Json.obj [("contents",
          Json.str "\x7b\"data\":\x7b\"id\":\"p1\"\x7d\x7d")])]))
        (fun _ => none)
        ⟨[], [stateHeader, ("p1", "not json")]⟩).status ≠ "致命的エラー") :=
  ⟨claim_C4.1 [stateHeader, ("p1", "not json")] "p1" 1 "not json" rfl rfl,
   (claim_C4.2 ⟨some "S", none, none, none⟩
     { spreadsheetId := "S", logSheetName := "NotionWebhookLog",
       stateSheetName := "ページ状態履歴", discordUrl := none, discordUrlSharoushi := none }
     (some (Json.obj [("postData", Json.obj [("contents",
       Json.str "\x7b\"data\":\x7b\"id\":\"p1\"\x7d\x7d")])]))
     (fun _ => none) ⟨[], [stateHeader, ("p1", "not json")]⟩
     "p1" (Json.obj [("id", Json.str "p1")]) 1 "not json"
     rfl (by rfl) (by rfl) rfl).1⟩


/-- C8: when `postData.contents` is absent the invocation's overall
status is the fatal value and still exactly one audit row is appended,
with the N/A placeholders in the business columns. -/
theorem claim_C8 (sp : ScriptProps) (cfg : Config) (e : Option Json)
    (net : String → Option String) (sheets : Sheets)
    (hcfg : loadConfig sp = .ok cfg) (hm : contentsMissing e = true) :
    (processWebhook sp e net sheets).status = "致命的エラー" ∧
    (processWebhook sp e net sheets).sheets.logRows
      = sheets.logRows ++ [{
          kigyoMei := "N/A", status := some "N/A", tanto := some "N/A",
          overallStatus := "致命的エラー", discordSummary := "",
          rawContents := "e.postData or e.postData.contents is missing",
          fullEventString := (parseWebhookEvent e).fullEventString }] := by
  cases e with
  | none => simp [contentsMissing] at hm
  | some ev =>
      simp only [contentsMissing, Option.isNone_iff_eq_none] at hm
      have hpe : parseWebhookEvent (some ev) =
          { rawContents := "e.postData or e.postData.contents is missing",
            fullEventString := jsonStringify ev, notionPageData := none } := by
        rw [parseWebhookEvent_some, hm]
      have hpid : pageIdOf (parseWebhookEvent (some ev)).notionPageData = none := by
        rw [hpe]
        rfl
      rw [processWebhook_fatal sp cfg (some ev) net sheets hcfg hpid]
      refine ⟨rfl, ?_⟩
      rw [hpe]


theorem claim_C8_witness :
    (processWebhook ⟨some "S", none, none, none⟩
        (some (Json.obj [("foo", Json.str "bar")])) (fun _ => none)
        ⟨[], []⟩).status = "致命的エラー" ∧
    (processWebhook ⟨some "S", none, none, none⟩
        (some (Json.obj [("foo", Json.str "bar")])) (fun _ => none)
        ⟨[], []⟩).sheets.logRows
      = [] ++ [{
          kigyoMei := "N/A", status := some "N/A", tanto := some "N/A",
          overallStatus := "致命的エラー", discordSummary := "",
          rawContents := "e.postData or e.postData.contents is missing",
          fullEventString :=
            (parseWebhookEvent (some (Json.obj [("foo", Json.str "bar")]))).fullEventString }] :=
  claim_C8 ⟨some "S", none, none, none⟩
    { spreadsheetId := "S", logSheetName := "NotionWebhookLog",
      stateSheetName := "ページ状態履歴", discordUrl := none, discordUrlSharoushi := none }
    (some (Json.obj [("foo", Json.str "bar")])) (fun _ => none) ⟨[], []⟩ rfl rfl


/-- C6: persisting a raw properties object through the upsert wiring of
the Orchestrator and retrieving it again for the same page id yields
exactly the stored properties, and extracting the retrieved object
gives the same record as extracting the original. -/
theorem claim_C6 (stateSheet : List StateRow) (pid : String) (props : Json)
    (hwf : wfJson props = true) (hne : stateSheet ≠ []) :
    (∃ i : Nat, getPreviousState
        (updateCurrentState stateSheet pid (some props)
          (match getPreviousState stateSheet pid with
           | some s => s.rowIndex | none => -1)) pid
      = some ⟨(i : Int) + 1, props⟩) ∧
    (getPreviousState
        (updateCurrentState stateSheet pid (some props)
          (match getPreviousState stateSheet pid with
           | some s => s.rowIndex | none => -1)) pid).map
      (fun st => extractNotionInfo (Json.obj [("properties", st.properties)]))
      = some (extractNotionInfo (Json.obj [("properties", props)])) := by
  obtain ⟨i, hi⟩ := getPreviousState_update hwf hne
  exact ⟨⟨i, hi⟩, by rw [hi]; rfl⟩


theorem claim_C6_witness :
    (∃ i : Nat, getPreviousState
        (updateCurrentState [stateHeader] "p1" (some (Json.obj [("a", Json.str "b")]))
          (match getPreviousState [stateHeader] "p1" with
           | some s => s.rowIndex | none => -1)) "p1"
      = some ⟨(i : Int) + 1, Json.obj [("a", Json.str "b")]⟩) ∧
    (getPreviousState
        (updateCurrentState [stateHeader] "p1" (some (Json.obj [("a", Json.str "b")]))
          (match getPreviousState [stateHeader] "p1" with
           | some s => s.rowIndex | none => -1)) "p1").map
      (fun st => extractNotionInfo (Json.obj [("properties", st.properties)]))
      = some (extractNotionInfo (Json.obj [("properties", Json.obj [("a", Json.str "b")])])) :=
  claim_C6 [stateHeader] "p1" (Json.obj [("a", Json.str "b")]) (by decide) (by decide)


theorem pageIdOf_eq_some {o : Option Json} {pid : String} {pd : Json}
    (h : pageIdOf o = some (pid, pd)) : o = some pd := by
  cases o with
  | none => simp [pageIdOf] at h
  | some pd' =>
      simp only [pageIdOf] at h
      split at h
      · next s heq =>
          split at h
          · simp at h
          · injection h with h1
            injection h1 with h2 h3
            rw [h3]
      · simp at h


theorem updateCurrentState_ne_nil (s0 : List StateRow) (pid : String)
    (p? : Option Json) (idx : Int) (hne : s0 ≠ []) :
    updateCurrentState s0 pid p? idx ≠ [] := by
  unfold updateCurrentState
  split
  · intro h
    have := setCellB_length s0 (idx - 1).toNat (stringifyOpt p?)
    rw [h] at this
    cases s0 with
    | nil => exact hne rfl
    | cons a l => simp at this
  · simp


/-- After the Orchestrator has persisted a payload's properties, the
notification hub run against the re-extracted previous record and the
same current record produces no notifications at all. -/
theorem handleNotifications_second (s0 : List StateRow) (pid : String) (pd : Json)
    (cfg : Config) (net : String → Option String)
    (hne : s0 ≠ []) (hwfpd : wfJson pd = true) :
    handleNotifications
      ((getPreviousState (updateCurrentState s0 pid (jGet pd "properties")
          (match getPreviousState s0 pid with | some s => s.rowIndex | none => -1)) pid).map
        (fun st => extractNotionInfo (Json.obj [("properties", st.properties)])))
      (extractNotionInfo pd) cfg net
      = ([], []) := by
  cases hp : jGet pd "properties" with
  | some props =>
      have hwfp : wfJson props = true := wfJson_jGet hwfpd hp
      obtain ⟨i, hi⟩ := @getPreviousState_update s0 pid props hwfp hne
      rw [hi]
      simp only [Option.map_some']
      obtain ⟨hs, ht, hsh⟩ := extractNotionInfo_props_only hp
      have hb1 : needsStatusNotification
          (some (extractNotionInfo (Json.obj [("properties", props)])))
          (extractNotionInfo pd) = false := by
        simp [needsStatusNotification, hs, ht]
      have hb2 : needsSharoushiNotification
          (some (extractNotionInfo (Json.obj [("properties", props)])))
          (extractNotionInfo pd) = false := by
        simp [needsSharoushiNotification, hsh]
      unfold handleNotifications
      simp [hb1, hb2]
  | none =>
      rw [getPreviousState_update_blank hne]
      simp only [Option.map_none']
      have hc : extractNotionInfo pd =
          { kigyoMei := "企業名不明", status := none, tanto := none, sharoushi := none,
            pageUrl := "URL不明", lastEditedTime := "日時不明" } := by
        simp [extractNotionInfo, hp, jsTruthy]
      have hb1 : needsStatusNotification none (extractNotionInfo pd) = false := by
        rw [hc]; rfl
      have hb2 : needsSharoushiNotification none (extractNotionInfo pd) = false := by
        rw [hc]; rfl
      unfold handleNotifications
      simp [hb1, hb2]


/-- C2 (idempotence): after one invocation has persisted the payload's
raw properties, a second invocation with the byte-identical payload
dispatches zero notifications — the result list and the attempted
fetches of the second call are both empty. -/
theorem claim_C2 (sp : ScriptProps) (cfg : Config) (e : Option Json)
    (net : String → Option String) (sheets : Sheets) (pid : String) (pd : Json)
    (hcfg : loadConfig sp = .ok cfg)
    (hpid : pageIdOf (parseWebhookEvent e).notionPageData = some (pid, pd)) :
    (processWebhook sp e net (processWebhook sp e net sheets).sheets).results = [] ∧
    (processWebhook sp e net (processWebhook sp e net sheets).sheets).sent = [] := by
  have hwfpd : wfJson pd = true :=
    parseWebhookEvent_wf (pageIdOf_eq_some hpid)
  rw [processWebhook_ok sp cfg e net sheets pid pd hcfg hpid]
  simp only
  rw [processWebhook_ok sp cfg e net _ pid pd hcfg hpid]
  simp only
  have hne0 : (if sheets.stateRows.isEmpty then [stateHeader] else sheets.stateRows) ≠ [] :=
    stateRows0_ne_nil sheets.stateRows
  have hne1 : updateCurrentState
      (if sheets.stateRows.isEmpty then [stateHeader] else sheets.stateRows) pid
      (jGet pd "properties")
      (match getPreviousState
        (if sheets.stateRows.isEmpty then [stateHeader] else sheets.stateRows) pid with
       | some s => s.rowIndex | none => -1) ≠ [] :=
    updateCurrentState_ne_nil _ pid _ _ hne0
  rw [if_neg (by simpa [List.isEmpty_iff] using hne1)]
  rw [handleNotifications_second _ pid pd cfg net hne0 hwfpd]
  exact ⟨rfl, rfl⟩


theorem claim_C2_witness :
    (processWebhook ⟨some "S", none, none, none⟩
      (some (Json.obj [("postData", Json.obj [("contents",
        Json.str "\x7b\"data\":\x7b\"id\":\"p1\",\"properties\":\x7b\"担当\":\x7b\"select\":\x7b\"name\":\"田中\"\x7d\x7d\x7d\x7d\x7d")])]))
      (fun _ => none)
      (processWebhook ⟨some "S", none, none, none⟩
        (some (Json.obj [("postData", Json.obj [("contents",
          Json.str "\x7b\"data\":\x7b\"id\":\"p1\",\"properties\":\x7b\"担当\":\x7b\"select\":\x7b\"name\":\"田中\"\x7d\x7d\x7d\x7d\x7d")])]))
        (fun _ => none) ⟨[], []⟩).sheets).results = [] ∧
    (processWebhook ⟨some "S", none, none, none⟩
      (some (Json.obj [("postData", Json.obj [("contents",
        Json.str "\x7b\"data\":\x7b\"id\":\"p1\",\"properties\":\x7b\"担当\":\x7b\"select\":\x7b\"name\":\"田中\"\x7d\x7d\x7d\x7d\x7d")])]))
      (fun _ => none)
      (processWebhook ⟨some "S", none, none, none⟩
        (some (Json.obj [("postData", Json.obj [("contents",
          Json.str "\x7b\"data\":\x7b\"id\":\"p1\",\"properties\":\x7b\"担当\":\x7b\"select\":\x7b\"name\":\"田中\"\x7d\x7d\x7d\x7d\x7d")])]))
        (fun _ => none) ⟨[], []⟩).sheets).sent = [] :=
  claim_C2 ⟨some "S", none, none, none⟩
    { spreadsheetId := "S", logSheetName := "NotionWebhookLog",
      stateSheetName := "ページ状態履歴", discordUrl := none, discordUrlSharoushi := none }
    (some (Json.obj [("postData", Json.obj [("contents",
      Json.str "\x7b\"data\":\x7b\"id\":\"p1\",\"properties\":\x7b\"担当\":\x7b\"select\":\x7b\"name\":\"田中\"\x7d\x7d\x7d\x7d\x7d")])]))
    (fun _ => none) ⟨[], []⟩ "p1"
    (Json.obj [("id", Json.str "p1"),
      ("properties", Json.obj [("担当", Json.obj [("select", Json.obj [("name", Json.str "田中")])])])])
    rfl (by rfl)


theorem set_same {α : Type} : ∀ (l : List α) (i : Nat) (a : α),
    l[i]? = some a → l.set i a = l := by
  intro l
  induction l with
  | nil => intro i a h; simp at h
  | cons x xs ih =>
      intro i a h
      cases i with
      | zero => simp at h; rw [List.set_cons_zero, h]
      | succ j =>
          simp only [List.getElem?_cons_succ] at h
          rw [List.set_cons_succ, ih j a h]


theorem setCellB_map_fst (s : List StateRow) (i : Nat) (v : String) :
    (setCellB s i v).map Prod.fst = s.map Prod.fst := by
  unfold setCellB
  split
  · next r hr =>
      rw [List.map_set]
      exact set_same _ i r.1 (by rw [List.getElem?_map, hr]; rfl)
  · rfl


theorem liveCount_map (s : List StateRow) (pid : String) :
    liveCount s pid = ((s.drop 1).map Prod.fst).countP (· == pid) := by
  unfold liveCount
  rw [List.countP_map]
  rfl


theorem liveCount_setCellB (s : List StateRow) (i : Nat) (v : String) (pid : String) :
    liveCount (setCellB s i v) pid = liveCount s pid := by
  rw [liveCount_map, liveCount_map, List.map_drop, List.map_drop, setCellB_map_fst]


theorem liveCount_append (s : List StateRow) (row : StateRow) (pid : String)
    (hne : s ≠ []) :
    liveCount (s ++ [row]) pid
      = liveCount s pid + (if row.1 == pid then 1 else 0) := by
  unfold liveCount
  have h1 : 1 ≤ s.length := by
    cases s with
    | nil => exact absurd rfl hne
    | cons a l => simp
  rw [List.drop_append_of_le_length h1, List.countP_append,
    List.countP_cons, List.countP_nil]
  simp


theorem findFromBottom_none_liveCount {s : List StateRow} {pid : String}
    (hf : findFromBottom s pid = none) : liveCount s pid = 0 := by
  unfold liveCount
  rw [List.countP_eq_zero]
  intro r hr
  obtain ⟨j, hjlt, hje⟩ := List.mem_iff_getElem.mp hr
  have hj : s[1 + j]? = some r := by
    rw [← List.getElem?_drop, List.getElem?_eq_getElem hjlt, hje]
  have hlen : 1 + j < s.length := by
    by_contra hge
    rw [List.getElem?_eq_none (by omega)] at hj
    cases hj
  have := findRowAux_none hf (1 + j) r (by omega)
    (by unfold findFromBottom at hf; omega) hj
  simpa using this


theorem liveCount_zero_findFromBottom {s : List StateRow} {pid : String}
    (hc : liveCount s pid = 0) : findFromBottom s pid = none := by
  cases hf : findFromBottom s pid with
  | none => rfl
  | some p =>
      obtain ⟨i, cell⟩ := p
      obtain ⟨h1, h2, h3⟩ := findRowAux_some hf
      have hd : (s.drop 1)[i - 1]? = some (pid, cell) := by
        rw [List.getElem?_drop, show 1 + (i - 1) = i from by omega, h3]
      have hmem : (pid, cell) ∈ s.drop 1 := by
        have hlt : i - 1 < (s.drop 1).length := by
          have : i < s.length := by
            by_contra hge
            rw [List.getElem?_eq_none (by omega)] at h3
            cases h3
          simp only [List.length_drop]
          omega
        rw [List.getElem?_eq_getElem hlt] at hd
        injection hd with hd
        exact hd ▸ List.getElem_mem hlt
      have : 0 < liveCount s pid := by
        unfold liveCount
        rw [List.countP_pos_iff]
        exact ⟨(pid, cell), hmem, by simp⟩
      omega


theorem liveCount_pos_findFromBottom {s : List StateRow} {pid : String}
    (hc : 1 ≤ liveCount s pid) : (findFromBottom s pid).isSome := by
  cases hf : findFromBottom s pid with
  | some p => rfl
  | none =>
      have := findFromBottom_none_liveCount hf
      omega


/-- The config-missing path of the Orchestrator, unfolded: the log
sheet was never obtained, so nothing is written anywhere. -/
theorem processWebhook_noconfig (sp : ScriptProps) (e : Option Json)
    (net : String → Option String) (sheets : Sheets) (msg : String)
    (hcfg : loadConfig sp = .error msg) :
    processWebhook sp e net sheets =
      { status := "致命的エラー", message := "Webhook processed.",
        sheets := sheets, results := [], sent := [] } := by
  unfold processWebhook
  rw [hcfg]


theorem reachable_inv {s : List StateRow} (h : ReachableState s) : SheetInv s := by
  induction h with
  | init =>
      refine ⟨by simp, ?_, ?_⟩
      · intro pid
        simp [liveCount]
      · intro j r hj hr
        cases j with
        | zero => omega
        | succ m => simp at hr
  | step sp e net logRows s hs hg ih =>
      obtain ⟨hne, hcnt, hpar⟩ := ih
      cases hcfg : loadConfig sp with
      | error msg =>
          rw [processWebhook_noconfig sp e net ⟨logRows, s⟩ msg hcfg]
          exact ⟨hne, hcnt, hpar⟩
      | ok cfg =>
          cases hpid : pageIdOf (parseWebhookEvent e).notionPageData with
          | none =>
              rw [processWebhook_fatal sp cfg e net ⟨logRows, s⟩ hcfg hpid]
              simp only
              rw [if_neg (by simpa [List.isEmpty_iff] using hne)]
              exact ⟨hne, hcnt, hpar⟩
          | some p =>
              obtain ⟨pid, pd⟩ := p
              rw [processWebhook_ok sp cfg e net ⟨logRows, s⟩ pid pd hcfg hpid]
              simp only
              rw [if_neg (by simpa [List.isEmpty_iff] using hne)]
              have hpdwf : wfJson pd = true :=
                parseWebhookEvent_wf (pageIdOf_eq_some hpid)
              have hex : (jGet pd "properties").isSome = true := by
                simp only [goodEvent, hpid] at hg
                exact hg
              obtain ⟨props, hprops⟩ := Option.isSome_iff_exists.mp hex
              have hwfp : wfJson props = true := wfJson_jGet hpdwf hprops
              rw [hprops]
              cases hf : findFromBottom s pid with
              | none =>
                  have hprev : getPreviousState s pid = none := by
                    unfold getPreviousState; rw [hf]
                  rw [hprev]
                  unfold updateCurrentState
                  simp only [stringifyOpt, show ¬((-1 : Int) > -1) from by omega, if_false]
                  refine ⟨by simp, ?_, ?_⟩
                  · intro q
                    rw [liveCount_append s _ q hne]
                    by_cases hq : (pid == q) = true
                    · have hqe : pid = q := beq_iff_eq.mp hq
                      subst hqe
                      rw [findFromBottom_none_liveCount hf]
                      simp
                    · simp only [Bool.not_eq_true] at hq
                      rw [hq]
                      simpa using hcnt q
                  · intro j r hj hr
                    by_cases hlt : j < s.length
                    · rw [List.getElem?_append_left hlt] at hr
                      exact hpar j r hj hr
                    · rw [List.getElem?_append_right (by omega)] at hr
                      cases hd : j - s.length with
                      | zero =>
                          rw [hd] at hr
                          simp only [List.getElem?_cons_zero] at hr
                          injection hr with hr
                          rw [← hr]
                          simp [jsonParse_stringify props hwfp]
                      | succ m =>
                          rw [hd] at hr
                          simp at hr
              | some p2 =>
                  obtain ⟨i0, cell⟩ := p2
                  obtain ⟨hi1, hi2, hi3⟩ := findRowAux_some hf
                  have hplift := hpar i0 (pid, cell) hi1 hi3
                  obtain ⟨p0, hp0⟩ := Option.isSome_iff_exists.mp hplift
                  have hprev : getPreviousState s pid = some ⟨(i0 : Int) + 1, p0⟩ := by
                    unfold getPreviousState; rw [hf]; simp [hp0]
                  rw [hprev]
                  unfold updateCurrentState
                  simp only [stringifyOpt, show ((i0 : Int) + 1 > -1) from by omega, if_true]
                  rw [show ((i0 : Int) + 1 - 1).toNat = i0 from by omega]
                  refine ⟨?_, ?_, ?_⟩
                  · intro hnil
                    have hl := setCellB_length s i0 (jsonStringify props)
                    rw [hnil] at hl
                    cases s with
                    | nil => exact hne rfl
                    | cons a l => simp at hl
                  · intro q
                    rw [liveCount_setCellB]
                    exact hcnt q
                  · intro j r hj hr
                    by_cases hji : j = i0
                    · subst hji
                      rw [setCellB_getElem_self (jsonStringify props) hi3] at hr
                      injection hr with hr
                      rw [← hr]
                      simp [jsonParse_stringify props hwfp]
                    · rw [setCellB_getElem_ne s i0 j _ (by omega)] at hr
                      exact hpar j r hj hr


theorem getPreviousState_some_inv {s : List StateRow} {pid : String} {st : PrevState}
    (h : getPreviousState s pid = some st) :
    ∃ (i0 : Nat) (cell : String), findFromBottom s pid = some (i0, cell) ∧
      st.rowIndex = (i0 : Int) + 1 ∧ jsonParse cell = some st.properties := by
  unfold getPreviousState at h
  split at h
  · next i cell heq =>
      split at h
      · next props hp =>
          injection h with h1
          exact ⟨i, cell, heq, by rw [← h1], by rw [← h1, hp]⟩
      · cases h
  · cases h


/-- C5, as written, fails: a payload carrying a page id but no
`properties` stores a blank (unparseable) cell, and a second sighting
of the same id then appends a second live row. -/
theorem claim_C5_counterexample :
    liveCount
      (processWebhook ⟨some "S", none, none, none⟩
        (some (Json.obj [("postData", Json.obj [("contents",
          Json.str "\x7b\"data\":\x7b\"id\":\"X\"\x7d\x7d")])]))
        (fun _ => none)
        (processWebhook ⟨some "S", none, none, none⟩
          (some (Json.obj [("postData", Json.obj [("contents",
            Json.str "\x7b\"data\":\x7b\"id\":\"X\"\x7d\x7d")])]))
          (fun _ => none) ⟨[], []⟩).sheets).sheets.stateRows "X" = 2 := by
  rfl


/-- C5 (amended): over runs whose payloads carry a `properties` member,
every reachable state of the state-history sheet is non-empty, has at
most one live row per page id, a first sighting appends exactly one
row, a subsequent sighting rewrites in place (same row count), and no
invocation ever deletes a row or changes a row's page id. -/
theorem claim_C5 (s : List StateRow) (hreach : ReachableState s) :
    s ≠ [] ∧
    (∀ pid : String, liveCount s pid ≤ 1) ∧
    (∀ (sp : ScriptProps) (cfg : Config) (e : Option Json)
        (net : String → Option String) (logRows : List LogRow)
        (pid : String) (pd : Json),
      loadConfig sp = .ok cfg →
      pageIdOf (parseWebhookEvent e).notionPageData = some (pid, pd) →
      (liveCount s pid = 0 →
        (processWebhook sp e net ⟨logRows, s⟩).sheets.stateRows
          = s ++ [(pid, stringifyOpt (jGet pd "properties"))]) ∧
      (1 ≤ liveCount s pid →
        ((processWebhook sp e net ⟨logRows, s⟩).sheets.stateRows).length = s.length)) ∧
    (∀ (sp : ScriptProps) (e : Option Json) (net : String → Option String)
        (logRows : List LogRow),
      s.length ≤ ((processWebhook sp e net ⟨logRows, s⟩).sheets.stateRows).length ∧
      (∀ (j : Nat) (r : StateRow), s[j]? = some r →
        ∃ cell : String,
          ((processWebhook sp e net ⟨logRows, s⟩).sheets.stateRows)[j]?
            = some (r.1, cell))) := by
  obtain ⟨hne, hcnt, hpar⟩ := reachable_inv hreach
  refine ⟨hne, hcnt, ?_, ?_⟩
  · intro sp cfg e net logRows pid pd hcfg hpid
    rw [processWebhook_ok sp cfg e net ⟨logRows, s⟩ pid pd hcfg hpid]
    simp only
    rw [if_neg (by simpa [List.isEmpty_iff] using hne)]
    constructor
    · intro hc0
      have hf : findFromBottom s pid = none := liveCount_zero_findFromBottom hc0
      have hprev : getPreviousState s pid = none := by
        unfold getPreviousState; rw [hf]
      rw [hprev]
      unfold updateCurrentState
      simp only [show ¬((-1 : Int) > -1) from by omega, if_false]
    · intro hc1
      have hfs := liveCount_pos_findFromBottom hc1
      obtain ⟨p2, hf⟩ := Option.isSome_iff_exists.mp hfs
      obtain ⟨i0, cell⟩ := p2
      obtain ⟨hi1, hi2, hi3⟩ := findRowAux_some hf
      have hpl := hpar i0 (pid, cell) hi1 hi3
      obtain ⟨p0, hp0⟩ := Option.isSome_iff_exists.mp hpl
      have hprev : getPreviousState s pid = some ⟨(i0 : Int) + 1, p0⟩ := by
        unfold getPreviousState; rw [hf]; simp [hp0]
      rw [hprev]
      unfold updateCurrentState
      simp only [show ((i0 : Int) + 1 > -1) from by omega, if_true]
      rw [show ((i0 : Int) + 1 - 1).toNat = i0 from by omega]
      exact setCellB_length s i0 _
  · intro sp e net logRows
    cases hcfg : loadConfig sp with
    | error msg =>
        rw [processWebhook_noconfig sp e net ⟨logRows, s⟩ msg hcfg]
        refine ⟨le_rfl, ?_⟩
        intro j r hr
        exact ⟨r.2, by rw [hr]⟩
    | ok cfg =>
        cases hpid : pageIdOf (parseWebhookEvent e).notionPageData with
        | none =>
            rw [processWebhook_fatal sp cfg e net ⟨logRows, s⟩ hcfg hpid]
            simp only
            rw [if_neg (by simpa [List.isEmpty_iff] using hne)]
            refine ⟨le_rfl, ?_⟩
            intro j r hr
            exact ⟨r.2, by rw [hr]⟩
        | some p =>
            obtain ⟨pid, pd⟩ := p
            rw [processWebhook_ok sp cfg e net ⟨logRows, s⟩ pid pd hcfg hpid]
            simp only
            rw [if_neg (by simpa [List.isEmpty_iff] using hne)]
            cases hprev : getPreviousState s pid with
            | none =>
                unfold updateCurrentState
                simp only [show ¬((-1 : Int) > -1) from by omega, if_false]
                refine ⟨by simp, ?_⟩
                intro j r hr
                have hlt : j < s.length := by
                  by_contra hge
                  rw [List.getElem?_eq_none (by omega)] at hr
                  cases hr
                exact ⟨r.2, by rw [List.getElem?_append_left hlt, hr]⟩
            | some st =>
                obtain ⟨i0, cell, hf, hridx, hpp⟩ := getPreviousState_some_inv hprev
                unfold updateCurrentState
                simp only
                rw [hridx]
                simp only [show ((i0 : Int) + 1 > -1) from by omega, if_true]
                rw [show ((i0 : Int) + 1 - 1).toNat = i0 from by omega]
                refine ⟨by rw [setCellB_length], ?_⟩
                intro j r hr
                by_cases hji : j = i0
                · subst hji
                  obtain ⟨hi1, hi2, hi3⟩ := findRowAux_some hf
                  rw [hi3] at hr
                  injection hr with hr
                  refine ⟨stringifyOpt (jGet pd "properties"), ?_⟩
                  rw [setCellB_getElem_self _ hi3, ← hr]
                · exact ⟨r.2, by rw [setCellB_getElem_ne s i0 j _ (by omega), hr]⟩


theorem claim_C5_witness :
    [stateHeader] ≠ [] ∧
    (∀ pid : String, liveCount [stateHeader] pid ≤ 1) ∧
    (∀ (sp : ScriptProps) (cfg : Config) (e : Option Json)
        (net : String → Option String) (logRows : List LogRow)
        (pid : String) (pd : Json),
      loadConfig sp = .ok cfg →
      pageIdOf (parseWebhookEvent e).notionPageData = some (pid, pd) →
      (liveCount [stateHeader] pid = 0 →
        (processWebhook sp e net ⟨logRows, [stateHeader]⟩).sheets.stateRows
          = [stateHeader] ++ [(pid, stringifyOpt (jGet pd "properties"))]) ∧
      (1 ≤ liveCount [stateHeader] pid →
        ((processWebhook sp e net ⟨logRows, [stateHeader]⟩).sheets.stateRows).length
          = [stateHeader].length)) ∧
    (∀ (sp : ScriptProps) (e : Option Json) (net : String → Option String)
        (logRows : List LogRow),
      [stateHeader].length
        ≤ ((processWebhook sp e net ⟨logRows, [stateHeader]⟩).sheets.stateRows).length ∧
      (∀ (j : Nat) (r : StateRow), [stateHeader][j]? = some r →
        ∃ cell : String,
          ((processWebhook sp e net ⟨logRows, [stateHeader]⟩).sheets.stateRows)[j]?
            = some (r.1, cell))) :=
  claim_C5 [stateHeader] ReachableState.init


end GasNotifier
